import Mathlib

/-!
Verification of the GSI-Technology-Equity-Research extraction/consolidation core.

This file gives a shallow embedding, in Lean 4, of the Python functions of the
repository that the checked claims are about:

* `DataCleaner._clean_numeric_value`        (src/scripts/utils/data_cleaner.py)
* `DataCleaner.normalize_item_names`        (src/scripts/utils/data_cleaner.py)
* `detect_statement_type_by_content`        (src/scripts/extract_annual_reports_v2.py)
* the period-column naming of
  `extract_financial_table_v2`              (src/scripts/extract_annual_reports_v2.py)
* `ExcelParser.detect_table_boundaries`     (src/scripts/utils/excel_parser.py)
* `DataConsolidator.extract_key_financial_items` and the derived
  `net_income_final` column                 (src/analysis/data_consolidation.py)

Modelling conventions:

* A raw spreadsheet/pandas cell is `Cell`: `blank` models `NaN`/`None`
  (`pd.isna` is true exactly on it), `str` a Python string, `num` a numeric
  value.  Numbers are modelled by `ℚ`; every value actually produced by the
  pipeline is an exact decimal, for which `ℚ` is a faithful model.
* Python floats produced by `float(...)` are represented internally by a pair
  `(m, k) : ℤ × ℕ` denoting the exact decimal `m / 10^k` (`decVal`), so that
  parsing is fully executable; the user-facing functions return `Option ℚ`.
* Python `str.strip`, `re.sub(r'[\$€£¥,\s]', ...)` etc. are modelled over
  `List Char` with the ASCII whitespace set (the repository data is ASCII).
* Functions that catch `ValueError`/`TypeError` and fall back are modelled as
  total functions into `Option`; `none` is the "missing" result.
-/

/-- A raw cell as read by pandas: `blank` is `NaN`/`None` (missing), `str` a
Python string, `num` a numeric value (exact-decimal model of a float). -/
inductive Cell where
  | blank : Cell
  | str : String → Cell
  | num : ℚ → Cell
deriving DecidableEq

/-- `pd.notna` on a cell: false exactly on the missing marker. -/
def Cell.notna : Cell → Bool
  | Cell.blank => false
  | _ => true

/-- ASCII whitespace, the set stripped by Python `str.strip()` and matched by
the regex class `\s` on the repository's ASCII data. -/
def isSpaceChar (c : Char) : Bool :=
  c == ' ' || c == '\t' || c == '\n' || c == '\r' || c == '\x0b' || c == '\x0c'

/-- Python `str.strip()`: drop whitespace from both ends. -/
def pyStripC (cs : List Char) : List Char :=
  ((cs.dropWhile isSpaceChar).reverse.dropWhile isSpaceChar).reverse

/-- Python `str.lower()` (ASCII). -/
def pyLowerC (cs : List Char) : List Char := cs.map Char.toLower

/-- The decimal digit character for `d < 10`. -/
def digitChar (d : ℕ) : Char :=
  match d with
  | 0 => '0' | 1 => '1' | 2 => '2' | 3 => '3' | 4 => '4'
  | 5 => '5' | 6 => '6' | 7 => '7' | 8 => '8' | _ => '9'

/-- Numeric value of a digit character. -/
def digitVal (c : Char) : ℕ := c.toNat - 48

/-- Fuelled most-significant-first decimal digits of a natural number
(kernel-reducible, unlike well-founded recursion). -/
def natDigitsAux : ℕ → ℕ → List Char
  | 0, _ => []
  | fuel + 1, n =>
    if n < 10 then [digitChar n] else natDigitsAux fuel (n / 10) ++ [digitChar (n % 10)]

/-- Most-significant-first decimal digits of a natural number. -/
def natDigits (n : ℕ) : List Char := natDigitsAux (n + 1) n

/-- The natural number denoted by a most-significant-first digit list. -/
def natOfDigits (cs : List Char) : ℕ := cs.foldl (fun a c => 10 * a + digitVal c) 0

/-- Split a char list at the first character satisfying `p`; the second
component is `none` when no character satisfies `p`. -/
def splitAtPred (p : Char → Bool) : List Char → List Char × Option (List Char)
  | [] => ([], none)
  | c :: cs =>
    if p c then ([], some cs)
    else
      let r := splitAtPred p cs
      (c :: r.1, r.2)

/-- Mantissa part of Python `float()`: digits with an optional single decimal
point, at least one digit overall.  Returns the exact decimal as `(m, k)`
meaning `m / 10^k`. -/
def parseMantD (cs : List Char) : Option (ℤ × ℕ) :=
  match splitAtPred (fun c => c == '.') cs with
  | (ip, none) =>
    if (!ip.isEmpty) && ip.all Char.isDigit then some (((natOfDigits ip : ℕ) : ℤ), 0) else none
  | (ip, some fp) =>
    if (!ip.isEmpty || !fp.isEmpty) && ip.all Char.isDigit && fp.all Char.isDigit then
      some (((natOfDigits (ip ++ fp) : ℕ) : ℤ), fp.length)
    else none

/-- Exponent part of Python `float()` (after `e`/`E`): optional sign then a
non-empty digit string. -/
def parseExpPart (cs : List Char) : Option ℤ :=
  match cs with
  | '+' :: ds =>
    if (!ds.isEmpty) && ds.all Char.isDigit then some ((natOfDigits ds : ℕ) : ℤ) else none
  | '-' :: ds =>
    if (!ds.isEmpty) && ds.all Char.isDigit then some (-((natOfDigits ds : ℕ) : ℤ)) else none
  | ds =>
    if (!ds.isEmpty) && ds.all Char.isDigit then some ((natOfDigits ds : ℕ) : ℤ) else none

/-- Scale an exact decimal `(m, k)` (meaning `m / 10^k`) by `10^e`. -/
def applyExp (p : ℤ × ℕ) (e : ℤ) : ℤ × ℕ :=
  if 0 ≤ e then (p.1 * 10 ^ e.toNat, p.2) else (p.1, p.2 + (-e).toNat)

/-- Unsigned Python float literal: mantissa with optional exponent part. -/
def parseUnsignedD (cs : List Char) : Option (ℤ × ℕ) :=
  match splitAtPred (fun c => c == 'e' || c == 'E') cs with
  | (mant, none) => parseMantD mant
  | (mant, some ex) =>
    match parseMantD mant, parseExpPart ex with
    | some p, some e => some (applyExp p e)
    | _, _ => none

/-- Signed Python float literal. -/
def parseSignedD (cs : List Char) : Option (ℤ × ℕ) :=
  match cs with
  | [] => none
  | c :: rest =>
    if c == '+' then parseUnsignedD rest
    else if c == '-' then (parseUnsignedD rest).map (fun p => (-p.1, p.2))
    else parseUnsignedD cs

/-- Python `float(s)` on a string: strip whitespace, then parse a signed
decimal literal; `none` models the `ValueError` raised on failure.  (The exotic
inputs `"inf"`/`"nan"` and digit-group underscores are not modelled; no claim
depends on them.) -/
def pyFloatD (cs : List Char) : Option (ℤ × ℕ) := parseSignedD (pyStripC cs)

/-- The rational value of an exact decimal pair. -/
def decVal (p : ℤ × ℕ) : ℚ := (p.1 : ℚ) / 10 ^ p.2

/-- Python `float(s)` as a rational. -/
def pyFloatQ (cs : List Char) : Option ℚ := (pyFloatD cs).map decVal

/-- Digits of `n` padded with leading zeros to at least `k+1` digits. -/
def paddedDigits (k n : ℕ) : List Char :=
  List.replicate (k + 1 - (natDigits n).length) '0' ++ natDigits n

/-- Unsigned fixed-point decimal rendering of `n / 10^k`: the padded digits of
`n` with a point before the last `k` digits, or Python's `.0` tail when
`k = 0`. -/
def renderBody (n k : ℕ) : List Char :=
  if k = 0 then paddedDigits k n ++ ['.', '0']
  else
    (paddedDigits k n).take ((paddedDigits k n).length - k) ++
      '.' :: (paddedDigits k n).drop ((paddedDigits k n).length - k)

/-- Fixed-point decimal rendering of `m / 10^k`, with a leading minus sign for
negative `m`. -/
def renderFixedC (m : ℤ) (k : ℕ) : List Char :=
  (if m < 0 then ['-'] else []) ++ renderBody m.natAbs k

/-- The least number of decimal places needed to write `v` exactly, when `v`
is an exact decimal (its denominator divides a power of ten); computed purely
with natural-number arithmetic so that it kernel-reduces. -/
def decExp (v : ℚ) : Option ℕ := (List.range (v.den + 1)).find? (fun k => 10 ^ k % v.den == 0)

/-- Python `str()` of a float value, modelled as the shortest exact decimal
rendering.  (Python renders very large/small magnitudes in scientific
notation instead, but both forms parse back to the same value under
`float()`, which is the only property the pipeline relies on.)  Non-decimal
rationals never arise as float values; they render as `""`. -/
def renderRatC (v : ℚ) : List Char :=
  match decExp v with
  | some k => renderFixedC (v.num * ((10 ^ k / v.den : ℕ) : ℤ)) k
  | none => []

/-- Python `str(cell)` as used on raw cells: `NaN` prints as `"nan"`, strings
are unchanged, numbers render in decimal. -/
def pyStrCellC (c : Cell) : List Char :=
  match c with
  | Cell.blank => ['n', 'a', 'n']
  | Cell.str s => s.toList
  | Cell.num v => renderRatC v

/-- Placeholder test of `_clean_numeric_value`: membership of the stripped
string in `['-', '—', 'N/A', 'n/a', 'NA']`. -/
def isPlaceholderC (cs : List Char) : Bool :=
  cs == ("-").toList || cs == ("—").toList || cs == ("N/A").toList ||
    cs == ("n/a").toList || cs == ("NA").toList

/-- The character class removed by `re.sub(r'[\$€£¥,\s]', '', value_str)`. -/
def isCurrencySpaceChar (c : Char) : Bool :=
  c == '$' || c == '€' || c == '£' || c == '¥' || c == ',' || isSpaceChar c

/-- The parenthesized-negative detection of `_clean_numeric_value`:
`value_str.startswith('(') and value_str.endswith(')')`, and in that case the
string with first and last character removed (`value_str[1:-1]`). -/
def parenStrip (cs : List Char) : Bool × List Char :=
  if cs.head? == some '(' && cs.getLast? == some ')' then (true, (cs.drop 1).dropLast)
  else (false, cs)

/-- The `%`-removal of `_clean_numeric_value` (`value_str.replace('%', '')`),
applied only when a `%` is present. -/
def percentPhase (cs : List Char) : List Char :=
  if cs.any (fun c => c == '%') then cs.filter (fun c => !(c == '%')) else cs

/-- Core of `DataCleaner._clean_numeric_value` over the exact-decimal float
representation, mirroring the Python control flow line by line:
`pd.isna` short circuit; `str(value).strip()`; empty/placeholder tokens;
parenthesized-negative flag and stripping; currency/comma/whitespace removal;
the percentage branch (which divides by 100 and — exactly as in the source —
ignores the `is_negative` flag); otherwise `float` with negation on success;
every parse failure yields `none`. -/
def cleanChars (cs0 : List Char) : Option (ℤ × ℕ) :=
  let cs := pyStripC cs0
  if cs.isEmpty || isPlaceholderC cs then none
  else
    let pr := parenStrip cs
    let cs2 := pr.2.filter (fun c => !isCurrencySpaceChar c)
    if cs2.any (fun c => c == '%') then
      match pyFloatD (cs2.filter (fun c => !(c == '%'))) with
      | some p => some (p.1, p.2 + 2)
      | none => none
    else
      match pyFloatD cs2 with
      | some p => some (if pr.1 then (-p.1, p.2) else p)
      | none => none

/-- `_clean_numeric_value` on a cell: the `pd.isna` short circuit followed by
the string pipeline on `str(value)`. -/
def cleanD (cell : Cell) : Option (ℤ × ℕ) :=
  match cell with
  | Cell.blank => none
  | _ => cleanChars (pyStrCellC cell)

/-- `DataCleaner._clean_numeric_value` (the spec's `ValueNormalizer.normalize`)
as a rational-valued function. -/
def cleanNumericValue (cell : Cell) : Option ℚ := (cleanD cell).map decVal

/-- The remainder handed to `float()` by `_clean_numeric_value` on a string
input: strip, drop surrounding parentheses, remove currency/comma/whitespace,
remove `%` when present. -/
def postStripRemainder (s : String) : List Char :=
  percentPhase ((parenStrip (pyStripC s.toList)).2.filter (fun c => !isCurrencySpaceChar c))

/-- C2 (code bug evidence): evaluating `_clean_numeric_value` at the failing
input `"(5%)"` yields `+0.05`: the function sets `is_negative` from the
surrounding parentheses but the percentage branch returns
`float(value_str)/100` without applying it, so the required `-0.05` is never
produced.  The non-percent parenthesized case `"(1,234.50)"` is negated as the
claim states. -/
theorem cleanNumericValue_paren_percent_bug :
    cleanNumericValue (Cell.str ("(5%)")) = some (1 / 20)
      ∧ cleanNumericValue (Cell.str ("(1,234.50)")) = some (-(2469 / 2)) := by
  have h1 : cleanD (Cell.str ("(5%)")) = some (5, 2) := by decide
  have h2 : cleanD (Cell.str ("(1,234.50)")) = some (-123450, 2) := by decide
  constructor
  · rw [cleanNumericValue, h1]
    show some (decVal (5, 2)) = some (1 / 20)
    norm_num [decVal]
  · rw [cleanNumericValue, h2]
    show some (decVal (-123450, 2)) = some (-(2469 / 2))
    norm_num [decVal]

/-- C8: `_clean_numeric_value` maps every placeholder token (`"-"`, `"—"`,
`"N/A"`, `"n/a"`, `""`) to missing, and whenever the remainder left after all
stripping fails to parse as a decimal number the result is missing — never
zero and never an exception (the embedding is a total function; the Python
`try/except` around `float` is the `none` branch of `pyFloatD`). -/
theorem cleanNumericValue_missing_never_zero :
    cleanNumericValue (Cell.str ("-")) = none
      ∧ cleanNumericValue (Cell.str ("—")) = none
      ∧ cleanNumericValue (Cell.str ("N/A")) = none
      ∧ cleanNumericValue (Cell.str ("n/a")) = none
      ∧ cleanNumericValue (Cell.str ("")) = none
      ∧ ∀ s : String, pyFloatD (postStripRemainder s) = none →
          cleanNumericValue (Cell.str s) = none := by
  refine ⟨by decide, by decide, by decide, by decide, by decide, ?_⟩
  intro s h
  have hclean : cleanD (Cell.str s) = cleanChars s.toList := rfl
  rw [cleanNumericValue, hclean]
  suffices hn : cleanChars s.toList = none by rw [hn]; rfl
  rw [postStripRemainder, percentPhase] at h
  simp only [cleanChars]
  by_cases hemp : ((pyStripC s.toList).isEmpty || isPlaceholderC (pyStripC s.toList)) = true
  · rw [if_pos hemp]
  · rw [if_neg hemp]
    by_cases hpct :
        (((parenStrip (pyStripC s.toList)).2.filter (fun c => !isCurrencySpaceChar c)).any
          (fun c => c == '%')) = true
    · rw [if_pos hpct] at h ⊢
      rw [h]
    · rw [if_neg hpct] at h ⊢
      rw [h]

/-- Witness for `cleanNumericValue_missing_never_zero`: the string `"abc"`
fails to parse after stripping and normalizes to missing. -/
theorem cleanNumericValue_missing_never_zero_witness :
    pyFloatD (postStripRemainder ("abc")) = none
      ∧ cleanNumericValue (Cell.str ("abc")) = none :=
  ⟨by decide, cleanNumericValue_missing_never_zero.2.2.2.2.2 ("abc") (by decide)⟩

/-! ### Round-trip lemmas: rendering a decimal value and parsing it back -/

theorem digitVal_digitChar {d : ℕ} (h : d < 10) : digitVal (digitChar d) = d := by
  interval_cases d <;> rfl

theorem isDigit_digitChar {d : ℕ} (h : d < 10) : (digitChar d).isDigit = true := by
  interval_cases d <;> rfl

theorem mem_natDigitsAux_isDigit {fuel n : ℕ} {c : Char}
    (hc : c ∈ natDigitsAux fuel n) : c.isDigit = true := by
  induction fuel generalizing n with
  | zero => simp [natDigitsAux] at hc
  | succ fuel ih =>
    rw [natDigitsAux] at hc
    by_cases h10 : n < 10
    · rw [if_pos h10] at hc
      rcases List.mem_singleton.mp hc with rfl
      exact isDigit_digitChar h10
    · rw [if_neg h10] at hc
      rcases List.mem_append.mp hc with h | h
      · exact ih h
      · rcases List.mem_singleton.mp h with rfl
        exact isDigit_digitChar (Nat.mod_lt _ (by omega))

theorem natDigitsAux_ne_nil {fuel n : ℕ} : natDigitsAux (fuel + 1) n ≠ [] := by
  rw [natDigitsAux]
  by_cases h10 : n < 10
  · rw [if_pos h10]; simp
  · rw [if_neg h10]; simp

theorem natOfDigits_append_singleton (cs : List Char) (c : Char) :
    natOfDigits (cs ++ [c]) = 10 * natOfDigits cs + digitVal c := by
  rw [natOfDigits, natOfDigits, List.foldl_append]
  rfl

theorem natOfDigits_natDigitsAux {fuel n : ℕ} (h : n < fuel) :
    natOfDigits (natDigitsAux fuel n) = n := by
  induction fuel generalizing n with
  | zero => omega
  | succ fuel ih =>
    rw [natDigitsAux]
    by_cases h10 : n < 10
    · rw [if_pos h10]
      show 10 * 0 + digitVal (digitChar n) = n
      rw [digitVal_digitChar h10]
      omega
    · rw [if_neg h10, natOfDigits_append_singleton,
        ih (by have := Nat.div_lt_self (by omega : 0 < n) (by omega : 1 < 10); omega),
        digitVal_digitChar (Nat.mod_lt _ (by omega))]
      omega

theorem natOfDigits_natDigits (n : ℕ) : natOfDigits (natDigits n) = n :=
  natOfDigits_natDigitsAux (Nat.lt_succ_self n)

theorem mem_natDigits_isDigit {n : ℕ} {c : Char} (hc : c ∈ natDigits n) : c.isDigit = true :=
  mem_natDigitsAux_isDigit hc

theorem natDigits_ne_nil (n : ℕ) : natDigits n ≠ [] := natDigitsAux_ne_nil

theorem natOfDigits_replicate_zero_append (j : ℕ) (cs : List Char) :
    natOfDigits (List.replicate j '0' ++ cs) = natOfDigits cs := by
  induction j with
  | zero => rfl
  | succ j ih =>
    rw [List.replicate_succ, List.cons_append]
    show List.foldl _ (10 * 0 + digitVal '0') _ = _
    have : 10 * 0 + digitVal '0' = 0 := rfl
    rw [this]
    exact ih

theorem splitAtPred_of_all_false {p : Char → Bool} {cs : List Char}
    (h : ∀ c ∈ cs, p c = false) : splitAtPred p cs = (cs, none) := by
  induction cs with
  | nil => rfl
  | cons c cs ih =>
    rw [splitAtPred, if_neg (by rw [h c (List.mem_cons_self c cs)]; simp)]
    rw [ih (fun x hx => h x (List.mem_cons_of_mem c hx))]

theorem splitAtPred_append {p : Char → Bool} {as : List Char} (t : Char) (bs : List Char)
    (ha : ∀ c ∈ as, p c = false) (ht : p t = true) :
    splitAtPred p (as ++ t :: bs) = (as, some bs) := by
  induction as with
  | nil => rw [List.nil_append, splitAtPred, if_pos ht]
  | cons a as ih =>
    rw [List.cons_append, splitAtPred,
      if_neg (by rw [ha a (List.mem_cons_self a as)]; simp),
      ih (fun x hx => ha x (List.mem_cons_of_mem a hx))]

theorem char_ne_of_digit {c x : Char} (h : c.isDigit = true) (hx : x.isDigit = false) :
    c ≠ x := by
  intro hc
  subst hc
  rw [h] at hx
  exact Bool.noConfusion hx

theorem isSpaceChar_false_of_digit {c : Char} (h : c.isDigit = true) :
    isSpaceChar c = false := by
  simp only [isSpaceChar, Bool.or_eq_false_iff, beq_eq_false_iff_ne]
  exact ⟨⟨⟨⟨⟨char_ne_of_digit h (by decide), char_ne_of_digit h (by decide)⟩,
    char_ne_of_digit h (by decide)⟩, char_ne_of_digit h (by decide)⟩,
    char_ne_of_digit h (by decide)⟩, char_ne_of_digit h (by decide)⟩

theorem isCurrencySpaceChar_false_of_digit {c : Char} (h : c.isDigit = true) :
    isCurrencySpaceChar c = false := by
  simp only [isCurrencySpaceChar, Bool.or_eq_false_iff, beq_eq_false_iff_ne]
  exact ⟨⟨⟨⟨⟨char_ne_of_digit h (by decide), char_ne_of_digit h (by decide)⟩,
    char_ne_of_digit h (by decide)⟩, char_ne_of_digit h (by decide)⟩,
    char_ne_of_digit h (by decide)⟩, isSpaceChar_false_of_digit h⟩

theorem natOfDigits_paddedDigits (k n : ℕ) : natOfDigits (paddedDigits k n) = n := by
  rw [paddedDigits, natOfDigits_replicate_zero_append, natOfDigits_natDigits]

theorem mem_paddedDigits_isDigit {k n : ℕ} {c : Char} (hc : c ∈ paddedDigits k n) :
    c.isDigit = true := by
  rcases List.mem_append.mp hc with h | h
  · rcases List.mem_replicate.mp h with ⟨-, rfl⟩
    decide
  · exact mem_natDigits_isDigit h

theorem paddedDigits_length (k n : ℕ) : k + 1 ≤ (paddedDigits k n).length := by
  rw [paddedDigits, List.length_append, List.length_replicate]
  omega

theorem paddedDigits_ne_nil (k n : ℕ) : paddedDigits k n ≠ [] := by
  intro h
  have := paddedDigits_length k n
  rw [h] at this
  simp at this

theorem parseMantD_split {as bs : List Char} (hne : as ≠ [])
    (ha : ∀ c ∈ as, c.isDigit = true) (hb : ∀ c ∈ bs, c.isDigit = true) :
    parseMantD (as ++ '.' :: bs) = some (((natOfDigits (as ++ bs) : ℕ) : ℤ), bs.length) := by
  have hsplit : splitAtPred (fun c => c == '.') (as ++ '.' :: bs) = (as, some bs) :=
    splitAtPred_append '.' bs
      (fun c hc => beq_eq_false_iff_ne.mpr (char_ne_of_digit (ha c hc) (by decide)))
      (by decide)
  have h1 : as.all Char.isDigit = true := List.all_eq_true.mpr ha
  have h2 : bs.all Char.isDigit = true := List.all_eq_true.mpr hb
  have h3 : as.isEmpty = false := by
    cases as with
    | nil => exact absurd rfl hne
    | cons a l => rfl
  simp only [parseMantD, hsplit, h1, h2, h3]
  simp

/-- Every character of the unsigned rendering is a digit or the point. -/
theorem mem_renderBody {n k : ℕ} {c : Char} (hc : c ∈ renderBody n k) :
    c.isDigit = true ∨ c = '.' := by
  rw [renderBody] at hc
  by_cases hk : k = 0
  · rw [if_pos hk] at hc
    rcases List.mem_append.mp hc with h | h
    · exact Or.inl (mem_paddedDigits_isDigit h)
    · rcases List.mem_cons.mp h with rfl | h
      · exact Or.inr rfl
      · rcases List.mem_singleton.mp h with rfl
        exact Or.inl (by decide)
  · rw [if_neg hk] at hc
    rcases List.mem_append.mp hc with h | h
    · exact Or.inl (mem_paddedDigits_isDigit (List.take_subset _ _ h))
    · rcases List.mem_cons.mp h with rfl | h
      · exact Or.inr rfl
      · exact Or.inl (mem_paddedDigits_isDigit (List.drop_subset _ _ h))

/-- The unsigned rendering starts with a digit. -/
theorem renderBody_head (n k : ℕ) :
    ∃ c₀ rest, renderBody n k = c₀ :: rest ∧ c₀.isDigit = true := by
  rw [renderBody]
  by_cases hk : k = 0
  · rw [if_pos hk]
    obtain ⟨d, ds, hds⟩ := List.exists_cons_of_ne_nil (paddedDigits_ne_nil k n)
    refine ⟨d, ds ++ ['.', '0'], by rw [hds, List.cons_append], ?_⟩
    exact mem_paddedDigits_isDigit (hds ▸ List.mem_cons_self d ds)
  · rw [if_neg hk]
    have hlen := paddedDigits_length k n
    have htne : (paddedDigits k n).take ((paddedDigits k n).length - k) ≠ [] := by
      rw [← List.length_pos, List.length_take]
      omega
    obtain ⟨d, ds, hds⟩ := List.exists_cons_of_ne_nil htne
    refine ⟨d, ds ++ '.' :: (paddedDigits k n).drop ((paddedDigits k n).length - k),
      by rw [hds, List.cons_append], ?_⟩
    exact mem_paddedDigits_isDigit
      (List.take_subset _ _ (hds ▸ List.mem_cons_self d ds))

theorem renderBody_length (n k : ℕ) : 3 ≤ (renderBody n k).length := by
  rw [renderBody]
  have hlen := paddedDigits_length k n
  by_cases hk : k = 0
  · rw [if_pos hk, List.length_append]
    have h2 : (['.', '0'] : List Char).length = 2 := rfl
    omega
  · rw [if_neg hk, List.length_append, List.length_cons, List.length_take, List.length_drop]
    omega

/-- Parsing the unsigned rendering of `n / 10^k` recovers an exact decimal
with value `n / 10^k`. -/
theorem parseMantD_renderBody (n k : ℕ) :
    ∃ q, parseMantD (renderBody n k) = some q ∧ decVal q = (n : ℚ) / 10 ^ k := by
  rw [renderBody]
  by_cases hk : k = 0
  · rw [if_pos hk]
    have h : parseMantD (paddedDigits 0 n ++ '.' :: ['0']) =
        some (((natOfDigits (paddedDigits 0 n ++ ['0']) : ℕ) : ℤ), 1) :=
      parseMantD_split (paddedDigits_ne_nil 0 n)
        (fun c hc => mem_paddedDigits_isDigit hc)
        (fun c hc => by rcases List.mem_singleton.mp hc with rfl; decide)
    rw [hk]
    refine ⟨_, h, ?_⟩
    rw [natOfDigits_append_singleton, natOfDigits_paddedDigits]
    have hdv : digitVal '0' = 0 := rfl
    rw [hdv, decVal]
    push_cast
    field_simp
  · rw [if_neg hk]
    have hlen := paddedDigits_length k n
    have htne : (paddedDigits k n).take ((paddedDigits k n).length - k) ≠ [] := by
      rw [← List.length_pos, List.length_take]
      omega
    have h := @parseMantD_split
      ((paddedDigits k n).take ((paddedDigits k n).length - k))
      ((paddedDigits k n).drop ((paddedDigits k n).length - k)) htne
      (fun c hc => mem_paddedDigits_isDigit (List.take_subset _ _ hc))
      (fun c hc => mem_paddedDigits_isDigit (List.drop_subset _ _ hc))
    rw [List.take_append_drop, natOfDigits_paddedDigits] at h
    refine ⟨_, h, ?_⟩
    rw [List.length_drop]
    have hkk : (paddedDigits k n).length - ((paddedDigits k n).length - k) = k := by omega
    rw [hkk]
    rfl

theorem parseUnsignedD_of_no_exp {cs : List Char}
    (h : ∀ c ∈ cs, (c == 'e' || c == 'E') = false) :
    parseUnsignedD cs = parseMantD cs := by
  simp only [parseUnsignedD, splitAtPred_of_all_false h]

theorem renderBody_no_exp {n k : ℕ} :
    ∀ c ∈ renderBody n k, (c == 'e' || c == 'E') = false := by
  intro c hc
  rcases mem_renderBody hc with h | rfl
  · rw [Bool.or_eq_false_iff]
    exact ⟨beq_eq_false_iff_ne.mpr (char_ne_of_digit h (by decide)),
      beq_eq_false_iff_ne.mpr (char_ne_of_digit h (by decide))⟩
  · decide

theorem parseSignedD_cons_of_digit {c₀ : Char} (rest : List Char) (h : c₀.isDigit = true) :
    parseSignedD (c₀ :: rest) = parseUnsignedD (c₀ :: rest) := by
  have h1 : (c₀ == '+') = false := beq_eq_false_iff_ne.mpr (char_ne_of_digit h (by decide))
  have h2 : (c₀ == '-') = false := beq_eq_false_iff_ne.mpr (char_ne_of_digit h (by decide))
  simp only [parseSignedD, h1, h2, Bool.false_eq_true, if_false]

theorem parseSignedD_cons_minus (rest : List Char) :
    parseSignedD ('-' :: rest) = (parseUnsignedD rest).map (fun p => (-p.1, p.2)) := by
  have h1 : (('-' : Char) == '+') = false := by decide
  have h2 : (('-' : Char) == '-') = true := by decide
  simp only [parseSignedD, h1, h2, Bool.false_eq_true, if_false, if_true]

theorem parseUnsignedD_renderBody (n k : ℕ) :
    ∃ q, parseUnsignedD (renderBody n k) = some q ∧ decVal q = (n : ℚ) / 10 ^ k := by
  obtain ⟨q, hq, hv⟩ := parseMantD_renderBody n k
  refine ⟨q, ?_, hv⟩
  rw [parseUnsignedD_of_no_exp renderBody_no_exp]
  exact hq

/-- Parsing the signed fixed-point rendering of `m / 10^k` recovers its value. -/
theorem parseSignedD_renderFixedC (m : ℤ) (k : ℕ) :
    ∃ p, parseSignedD (renderFixedC m k) = some p ∧ decVal p = (m : ℚ) / 10 ^ k := by
  obtain ⟨q, hq, hv⟩ := parseUnsignedD_renderBody m.natAbs k
  have hv2 : (q.1 : ℚ) / 10 ^ q.2 = ((m.natAbs : ℕ) : ℚ) / 10 ^ k := hv
  by_cases hm : m < 0
  · have habs : ((m.natAbs : ℕ) : ℚ) = -(m : ℚ) := by
      rw [Int.cast_natAbs, abs_of_neg hm]
      push_cast
      rfl
    have hr : renderFixedC m k = '-' :: renderBody m.natAbs k := by
      rw [renderFixedC, if_pos hm, List.singleton_append]
    refine ⟨(-q.1, q.2), ?_, ?_⟩
    · rw [hr, parseSignedD_cons_minus, hq]
      rfl
    · show ((-q.1 : ℤ) : ℚ) / 10 ^ q.2 = (m : ℚ) / 10 ^ k
      push_cast
      rw [neg_div, hv2, habs, neg_div, neg_neg]
  · have hm0 : 0 ≤ m := le_of_not_lt hm
    have habs : ((m.natAbs : ℕ) : ℚ) = (m : ℚ) := by
      rw [Int.cast_natAbs, abs_of_nonneg hm0]
    have hr : renderFixedC m k = renderBody m.natAbs k := by
      rw [renderFixedC, if_neg hm, List.nil_append]
    obtain ⟨c₀, rest, hcons, hdig⟩ := renderBody_head m.natAbs k
    refine ⟨q, ?_, ?_⟩
    · rw [hr, hcons, parseSignedD_cons_of_digit rest hdig, ← hcons, hq]
    · show (q.1 : ℚ) / 10 ^ q.2 = (m : ℚ) / 10 ^ k
      rw [hv2, habs]

/-- A divisor of a power of ten divides the power of ten with exponent equal
to the divisor itself. -/
theorem dvd_ten_pow_self : ∀ d : ℕ, (∃ j, d ∣ 10 ^ j) → d ∣ 10 ^ d := by
  intro d
  induction d using Nat.strong_induction_on with
  | _ d ih =>
    rintro ⟨j, h⟩
    rcases Nat.eq_zero_or_pos d with rfl | hd0
    · exact absurd (Nat.eq_zero_of_zero_dvd h) (pow_ne_zero j (by norm_num))
    rcases eq_or_ne d 1 with rfl | hd1
    · exact one_dvd _
    obtain ⟨p, hp, hpd⟩ := Nat.exists_prime_and_dvd hd1
    have hp10 : p ∣ 10 := hp.dvd_of_dvd_pow (hpd.trans h)
    obtain ⟨e, rfl⟩ := hpd
    have hp2 : 2 ≤ p := hp.two_le
    have he0 : 0 < e := by
      rcases Nat.eq_zero_or_pos e with rfl | he
      · omega
      · exact he
    have hed : e < p * e := by nlinarith
    have hej : e ∣ 10 ^ j := (dvd_mul_left e p).trans h
    have ihe : e ∣ 10 ^ e := ih e hed ⟨j, hej⟩
    have hstep : p * e ∣ 10 * 10 ^ e := mul_dvd_mul hp10 ihe
    refine hstep.trans ?_
    rw [← pow_succ']
    exact pow_dvd_pow 10 (by nlinarith)

/-- The denominator of `m / 10^k` divides `10^k`. -/
theorem den_dvd_ten_pow {v : ℚ} {m : ℤ} {k : ℕ} (hv : v = (m : ℚ) / 10 ^ k) :
    v.den ∣ 10 ^ k := by
  have h10 : ((10 : ℚ) ^ k) ≠ 0 := by positivity
  have hmul : v * 10 ^ k = (m : ℚ) := by rw [hv, div_mul_cancel₀ _ h10]
  have hden0 : ((v.den : ℚ)) ≠ 0 := Nat.cast_ne_zero.mpr v.den_nz
  have hnd : (v.num : ℚ) = v * v.den := by
    have h := Rat.num_div_den v
    rw [div_eq_iff hden0] at h
    exact h
  have hq : (v.num : ℚ) * 10 ^ k = (m : ℚ) * (v.den : ℚ) := by
    calc (v.num : ℚ) * 10 ^ k = (v * v.den) * 10 ^ k := by rw [hnd]
      _ = (v * 10 ^ k) * v.den := by ring
      _ = (m : ℚ) * v.den := by rw [hmul]
  have hz : v.num * (10 : ℤ) ^ k = m * (v.den : ℤ) := by exact_mod_cast hq
  have hdvdInt : ((v.den : ℤ)) ∣ v.num * 10 ^ k := by
    rw [hz]
    exact dvd_mul_left _ _
  have hnat : v.den ∣ (v.num * 10 ^ k).natAbs := by
    have := Int.natAbs_dvd_natAbs.mpr hdvdInt
    simpa using this
  rw [Int.natAbs_mul, Int.natAbs_pow] at hnat
  have h10abs : (10 : ℤ).natAbs = 10 := rfl
  rw [h10abs] at hnat
  exact (Nat.Coprime.dvd_of_dvd_mul_left v.reduced.symm hnat)

/-- Every exact decimal has a successful `decExp`. -/
theorem decExp_eq_some_of_decimal {v : ℚ} {m : ℤ} {k : ℕ} (hv : v = (m : ℚ) / 10 ^ k) :
    ∃ j, decExp v = some j := by
  have hdd : v.den ∣ 10 ^ v.den := dvd_ten_pow_self _ ⟨k, den_dvd_ten_pow hv⟩
  have hmem : v.den ∈ List.range (v.den + 1) := List.mem_range.mpr (Nat.lt_succ_self _)
  have hpred : (10 ^ v.den % v.den == 0) = true := by
    rw [beq_iff_eq]
    exact Nat.mod_eq_zero_of_dvd hdd
  rw [decExp]
  rcases hfind : (List.range (v.den + 1)).find? (fun j => 10 ^ j % v.den == 0) with _ | j
  · exact absurd hpred (List.find?_eq_none.mp hfind _ hmem)
  · exact ⟨j, rfl⟩

/-- Parsing the decimal rendering of an exact decimal recovers the value. -/
theorem renderRatC_parse {v : ℚ} {j : ℕ} (hj : decExp v = some j) :
    ∃ p, parseSignedD (renderRatC v) = some p ∧ decVal p = v := by
  have hpred : (10 ^ j % v.den == 0) = true := by
    rw [decExp] at hj
    exact @List.find?_some ℕ (fun i => 10 ^ i % v.den == 0) j (List.range (v.den + 1)) hj
  have hdvd : v.den ∣ 10 ^ j := Nat.dvd_of_mod_eq_zero (beq_iff_eq.mp hpred)
  have hrr : renderRatC v = renderFixedC (v.num * ((10 ^ j / v.den : ℕ) : ℤ)) j := by
    rw [renderRatC, hj]
  obtain ⟨p, hp, hval⟩ := parseSignedD_renderFixedC (v.num * ((10 ^ j / v.den : ℕ) : ℤ)) j
  refine ⟨p, by rw [hrr]; exact hp, ?_⟩
  rw [hval]
  have hden0 : ((v.den : ℚ)) ≠ 0 := Nat.cast_ne_zero.mpr v.den_nz
  have htpos : 0 < 10 ^ j / v.den :=
    Nat.div_pos (Nat.le_of_dvd (by positivity) hdvd) (Nat.pos_of_ne_zero v.den_nz)
  have ht : (v.den : ℕ) * (10 ^ j / v.den) = 10 ^ j := Nat.mul_div_cancel' hdvd
  have hnd : (v.num : ℚ) = v * v.den := by
    have h := Rat.num_div_den v
    rw [div_eq_iff hden0] at h
    exact h
  have h10Q : ((10 : ℚ)) ^ j = (v.den : ℚ) * ((10 ^ j / v.den : ℕ) : ℚ) := by
    have hcast : ((v.den * (10 ^ j / v.den) : ℕ) : ℚ) = ((10 ^ j : ℕ) : ℚ) := by
      exact_mod_cast congrArg (fun x : ℕ => (x : ℚ)) ht
    push_cast at hcast
    linarith
  rw [div_eq_iff (by positivity : ((10 : ℚ)) ^ j ≠ 0)]
  push_cast
  rw [h10Q, hnd]
  ring_nf
  norm_cast

theorem mem_renderFixedC {m : ℤ} {k : ℕ} {c : Char} (hc : c ∈ renderFixedC m k) :
    c.isDigit = true ∨ c = '-' ∨ c = '.' := by
  rw [renderFixedC] at hc
  rcases List.mem_append.mp hc with h | h
  · by_cases hm : m < 0
    · rw [if_pos hm] at h
      rcases List.mem_singleton.mp h with rfl
      exact Or.inr (Or.inl rfl)
    · rw [if_neg hm] at h
      simp at h
  · rcases mem_renderBody h with hd | rfl
    · exact Or.inl hd
    · exact Or.inr (Or.inr rfl)

theorem renderFixedC_head (m : ℤ) (k : ℕ) :
    ∃ c₀ rest, renderFixedC m k = c₀ :: rest ∧ (c₀ = '-' ∨ c₀.isDigit = true) := by
  rw [renderFixedC]
  obtain ⟨d, ds, hds, hdig⟩ := renderBody_head m.natAbs k
  by_cases hm : m < 0
  · rw [if_pos hm]
    exact ⟨'-', renderBody m.natAbs k, List.singleton_append, Or.inl rfl⟩
  · rw [if_neg hm, List.nil_append, hds]
    exact ⟨d, ds, rfl, Or.inr hdig⟩

theorem renderFixedC_length (m : ℤ) (k : ℕ) : 3 ≤ (renderFixedC m k).length := by
  rw [renderFixedC, List.length_append]
  have := renderBody_length m.natAbs k
  omega

/-- A string of length at least three starting with a minus sign or digit is
none of the placeholder tokens. -/
theorem isPlaceholderC_false_of_shape {c₀ : Char} {rest : List Char}
    (hlen : 3 ≤ (c₀ :: rest).length) (hc₀ : c₀ = '-' ∨ c₀.isDigit = true) :
    isPlaceholderC (c₀ :: rest) = false := by
  have hhead : c₀ ≠ 'N' ∧ c₀ ≠ 'n' := by
    rcases hc₀ with rfl | h
    · exact ⟨by decide, by decide⟩
    · exact ⟨char_ne_of_digit h (by decide), char_ne_of_digit h (by decide)⟩
  rw [isPlaceholderC]
  simp only [Bool.or_eq_false_iff]
  refine ⟨⟨⟨⟨?_, ?_⟩, ?_⟩, ?_⟩, ?_⟩ <;> rw [beq_eq_false_iff_ne] <;> intro hh
  · have hh2 : c₀ :: rest = ['-'] := hh
    have := congrArg List.length hh2
    simp only [List.length_cons, List.length_nil] at this hlen
    omega
  · have hh2 : c₀ :: rest = ['—'] := hh
    have := congrArg List.length hh2
    simp only [List.length_cons, List.length_nil] at this hlen
    omega
  · have hh2 : c₀ :: rest = ['N', '/', 'A'] := hh
    injection hh2 with h1 h2
    exact hhead.1 h1
  · have hh2 : c₀ :: rest = ['n', '/', 'a'] := hh
    injection hh2 with h1 h2
    exact hhead.2 h1
  · have hh2 : c₀ :: rest = ['N', 'A'] := hh
    injection hh2 with h1 h2
    exact hhead.1 h1

theorem dropWhile_eq_self_of_false {p : Char → Bool} {cs : List Char}
    (h : ∀ c ∈ cs, p c = false) : cs.dropWhile p = cs := by
  cases cs with
  | nil => rfl
  | cons c cs =>
    rw [List.dropWhile_cons, h c (List.mem_cons_self c cs)]
    simp

theorem pyStripC_eq_self {cs : List Char} (h : ∀ c ∈ cs, isSpaceChar c = false) :
    pyStripC cs = cs := by
  rw [pyStripC, dropWhile_eq_self_of_false h,
    dropWhile_eq_self_of_false (fun c hc => h c (List.mem_reverse.mp hc)),
    List.reverse_reverse]

/-- On a non-empty, whitespace-free, paren-free, currency-free, percent-free
string (such as the decimal rendering of a number), `_clean_numeric_value`
reduces to a plain `float()` parse. -/
theorem cleanChars_plain {cs : List Char}
    (hcons : ∃ c₀ rest, cs = c₀ :: rest ∧ (c₀ = '-' ∨ c₀.isDigit = true))
    (hlen : 3 ≤ cs.length)
    (hcls : ∀ c ∈ cs, c.isDigit = true ∨ c = '-' ∨ c = '.') :
    cleanChars cs = parseSignedD cs := by
  obtain ⟨c₀, rest, rfl, hc₀⟩ := hcons
  have hnsp : ∀ c ∈ c₀ :: rest, isSpaceChar c = false := by
    intro c hc
    rcases hcls c hc with h | rfl | rfl
    · exact isSpaceChar_false_of_digit h
    · decide
    · decide
  have hstrip : pyStripC (c₀ :: rest) = c₀ :: rest := pyStripC_eq_self hnsp
  have hemp : (c₀ :: rest).isEmpty = false := rfl
  have hph : isPlaceholderC (c₀ :: rest) = false := isPlaceholderC_false_of_shape hlen hc₀
  have hparen : parenStrip (c₀ :: rest) = (false, c₀ :: rest) := by
    have hhne : c₀ ≠ '(' := by
      rcases hc₀ with rfl | h
      · decide
      · exact char_ne_of_digit h (by decide)
    have hcond : ((c₀ :: rest).head? == some '(') = false := by
      rw [List.head?_cons]
      exact beq_eq_false_iff_ne.mpr (fun hh => hhne (Option.some_inj.mp hh))
    rw [parenStrip, hcond, Bool.false_and]
    rfl
  have hfilter : (c₀ :: rest).filter (fun c => !isCurrencySpaceChar c) = c₀ :: rest := by
    apply List.filter_eq_self.mpr
    intro c hc
    rcases hcls c hc with h | rfl | rfl
    · rw [isCurrencySpaceChar_false_of_digit h]
      rfl
    · decide
    · decide
  have hany : ((c₀ :: rest).any (fun c => c == '%')) = false := by
    rw [List.any_eq_false]
    intro c hc
    rcases hcls c hc with h | rfl | rfl
    · intro hcontra
      exact char_ne_of_digit h (by decide) (beq_iff_eq.mp hcontra)
    · decide
    · decide
  simp only [cleanChars, hstrip, hemp, hph, Bool.or_self, Bool.false_eq_true, if_false,
    hparen, hfilter, hany, pyFloatD]
  cases hps : parseSignedD (c₀ :: rest) with
  | none => rfl
  | some p => rfl

/-- C9: `_clean_numeric_value` is idempotent on its own output — renormalizing
a produced number returns the same number (the number prints as a plain
decimal which parses straight back), and the missing marker renormalizes to
missing (`pd.isna` short circuit). -/
theorem cleanNumericValue_idempotent :
    (∀ cell v, cleanNumericValue cell = some v → cleanNumericValue (Cell.num v) = some v)
    ∧ cleanNumericValue Cell.blank = none := by
  constructor
  · intro cell v hcv
    rw [cleanNumericValue] at hcv
    cases hc : cleanD cell with
    | none =>
      rw [hc] at hcv
      simp at hcv
    | some p =>
      rw [hc] at hcv
      have hv : decVal p = v := by simpa using hcv
      obtain ⟨j, hj⟩ :=
        decExp_eq_some_of_decimal (show v = (p.1 : ℚ) / 10 ^ p.2 from by rw [← hv]; rfl)
      obtain ⟨P, hP, hPv⟩ := renderRatC_parse hj
      have hrr : renderRatC v = renderFixedC (v.num * ((10 ^ j / v.den : ℕ) : ℤ)) j := by
        rw [renderRatC, hj]
      have hclean : cleanD (Cell.num v) = cleanChars (renderRatC v) := rfl
      have hplain : cleanChars (renderRatC v) = parseSignedD (renderRatC v) := by
        apply cleanChars_plain
        · rw [hrr]
          exact renderFixedC_head _ _
        · rw [hrr]
          exact renderFixedC_length _ _
        · rw [hrr]
          intro c hc2
          exact mem_renderFixedC hc2
      rw [cleanNumericValue, hclean, hplain, hP]
      show some (decVal P) = some v
      rw [hPv]
  · rfl

/-- Witness for `cleanNumericValue_idempotent`: normalizing `"7"` yields `7`,
and renormalizing the numeric cell `7` yields `7` again. -/
theorem cleanNumericValue_idempotent_witness :
    cleanNumericValue (Cell.str ("7")) = some 7
      ∧ cleanNumericValue (Cell.num 7) = some 7 := by
  have h7 : cleanNumericValue (Cell.str ("7")) = some 7 := by
    have hc : cleanD (Cell.str ("7")) = some (7, 0) := by decide
    rw [cleanNumericValue, hc]
    show some (decVal (7, 0)) = some 7
    norm_num [decVal]
  exact ⟨h7, cleanNumericValue_idempotent.1 (Cell.str ("7")) 7 h7⟩

/-! ### `DataCleaner.normalize_item_names` (line-item canonicalization) -/

/-- A token of the restricted regex dialect used by
`DataCleaner.normalize_item_names`: a literal character, `.*`, an optional
character `c?`, or a group of literal alternatives `(?:a|b)`. -/
inductive RTok where
  | lit : Char → RTok
  | anyStar : RTok
  | opt : Char → RTok
  | alt : List (List Char) → RTok

/-- Fuelled matcher for the restricted dialect, with `re.match` semantics: the
pattern must match a prefix of the string, and the fuel
`ts.length + cs.length + 1` is always sufficient because every recursive call
shrinks `ts.length + cs.length`. -/
def rmatchAux : ℕ → List RTok → List Char → Bool
  | 0, _, _ => false
  | fuel + 1, ts0, cs0 =>
    match ts0, cs0 with
    | [], _ => true
    | RTok.lit c :: ts, [] => false
    | RTok.lit c :: ts, x :: xs => x == c && rmatchAux fuel ts xs
    | RTok.anyStar :: ts, cs =>
      rmatchAux fuel ts cs ||
        (match cs with
         | [] => false
         | _ :: xs => rmatchAux fuel (RTok.anyStar :: ts) xs)
    | RTok.opt c :: ts, cs =>
      (match cs with
       | x :: xs => x == c && rmatchAux fuel ts xs
       | [] => false) || rmatchAux fuel ts cs
    | RTok.alt ws :: ts, cs =>
      ws.any (fun w => w.isPrefixOf cs && rmatchAux fuel ts (cs.drop w.length))

/-- `re.match(pattern, s)` as a boolean, over the restricted dialect. -/
def rmatch (ts : List RTok) (cs : List Char) : Bool :=
  rmatchAux (ts.length + cs.length + 1) ts cs

/-- Literal regex characters. -/
def lits (s : String) : List RTok := s.toList.map RTok.lit

/-- Shorthand for `.*`. -/
def star : RTok := RTok.anyStar

/-- The ordered `mappings` dict of `normalize_item_names`, transliterated
pattern by pattern (source order preserved; `re.match` is applied to the
lowercased, stripped label, first match wins). -/
def itemMappings : List (List RTok × String) :=
  [([star] ++ lits ("cash") ++ [star] ++ lits ("cash equivalents") ++ [star],
      ("Cash and cash equivalents")),
   ([star] ++ lits ("short") ++ [star] ++ lits ("term") ++ [star] ++ lits ("investment") ++
      [RTok.opt 's', star], ("Short-term investments")),
   ([star] ++ lits ("account") ++ [RTok.opt 's'] ++ lits (" receivable") ++ [star],
      ("Accounts receivable")),
   ([star] ++ lits ("inventories") ++ [star], ("Inventories")),
   ([star] ++ lits ("total current assets") ++ [star], ("Total current assets")),
   ([star] ++ lits ("property") ++ [star] ++ lits ("equipment") ++ [star],
      ("Property and equipment")),
   ([star] ++ lits ("total assets") ++ [star], ("Total assets")),
   ([star] ++ lits ("account") ++ [RTok.opt 's'] ++ lits (" payable") ++ [star],
      ("Accounts payable")),
   ([star] ++ lits ("accrued") ++ [star] ++ lits ("expenses") ++ [star], ("Accrued expenses")),
   ([star] ++ lits ("total current liabilities") ++ [star], ("Total current liabilities")),
   ([star] ++ lits ("total liabilities") ++ [star], ("Total liabilities")),
   ([star] ++ lits ("stockholder") ++ [RTok.opt 's', star] ++ lits (" equity") ++ [star],
      ("Stockholders equity")),
   ([star] ++ lits ("shareholder") ++ [RTok.opt 's', star] ++ lits (" equity") ++ [star],
      ("Stockholders equity")),
   ([star] ++ lits ("net revenue") ++ [RTok.opt 's', star], ("Net revenues")),
   ([star] ++ lits ("cost of ") ++ [RTok.alt [("goods").toList, ("revenue").toList], star] ++
      lits ("sold") ++ [star], ("Cost of revenues")),
   ([star] ++ lits ("gross profit") ++ [star], ("Gross profit")),
   ([star] ++ lits ("research") ++ [star] ++ lits ("development") ++ [star],
      ("Research and development")),
   ([star] ++ lits ("selling") ++ [star] ++ lits ("general") ++ [star] ++
      lits ("administrative") ++ [star], ("Selling, general and administrative")),
   ([star] ++ lits ("operating ") ++ [RTok.alt [("income").toList, ("profit").toList], star],
      ("Operating income")),
   ([star] ++ lits ("operating loss") ++ [star], ("Operating loss")),
   ([star] ++ lits ("net income") ++ [star], ("Net income")),
   ([star] ++ lits ("net loss") ++ [star], ("Net loss")),
   ([star, RTok.alt [("basic").toList, ("diluted").toList]] ++ lits (" ") ++
      [RTok.alt [("earnings").toList, ("loss").toList]] ++ lits (" per share") ++ [star],
      ("Earnings per share"))]

/-- `normalize_item_names`' per-label `normalize_name`: `NaN` labels pass
through; otherwise the label is lowercased and stripped, the mapping rules are
tried in order with `re.match`, the first hit returns its canonical name and
otherwise the original label is returned unchanged. -/
def normalizeItemName (cell : Cell) : Cell :=
  match cell with
  | Cell.blank => Cell.blank
  | _ =>
    let nl := pyStripC (pyLowerC (pyStrCellC cell))
    match itemMappings.find? (fun pr => rmatch pr.1 nl) with
    | some pr => Cell.str pr.2
    | none => cell

/-- C6 counterexample: the three spellings do not resolve to one canonical
key.  `"Net revenues"` hits the `.*net revenues?.*` rule (mapping to the
canonical `Net revenues`), but `"Total revenue"` matches no rule and is
returned unchanged, so two of the three outputs differ. -/
theorem normalizeItemName_revenue_not_unified :
    normalizeItemName (Cell.str ("Net revenues")) = Cell.str ("Net revenues")
      ∧ normalizeItemName (Cell.str ("Total revenue")) = Cell.str ("Total revenue")
      ∧ Cell.str ("Total revenue") ≠ Cell.str ("Net revenues") := by
  decide

/-- C6 amended: the mapping list's only revenue rule is `.*net revenues?.*` —
`"Net revenues"` and the singular `"Net revenue"` map to the canonical
`Net revenues`, while `"Total revenue"` and `"Revenue"` match no rule and are
returned unchanged.  The rules are tried in source order with the first match
winning, so a label that also matches an earlier rule is not canonicalized to
`Net revenues`: `"Total assets net revenue"` hits the earlier
`.*total assets.*` rule and resolves to `Total assets`. -/
theorem normalizeItemName_revenue_rule :
    normalizeItemName (Cell.str ("Net revenues")) = Cell.str ("Net revenues")
      ∧ normalizeItemName (Cell.str ("Net revenue")) = Cell.str ("Net revenues")
      ∧ normalizeItemName (Cell.str ("Total revenue")) = Cell.str ("Total revenue")
      ∧ normalizeItemName (Cell.str ("Revenue")) = Cell.str ("Revenue")
      ∧ normalizeItemName (Cell.str ("Total assets net revenue"))
          = Cell.str ("Total assets") := by
  decide

/-! ### `detect_statement_type_by_content` (content-based classifier) -/

/-- Python `needle in hay` substring test. -/
def containsSubC (needle hay : List Char) : Bool :=
  (List.range (hay.length + 1)).any (fun i => needle.isPrefixOf (hay.drop i))

/-- `' '.join(first_col)` where `first_col` is the lowercased string form of
each row's first cell (`df.iloc[:, 0].astype(str).str.lower()`). -/
def firstColTextC (rows : List (List Cell)) : List Char :=
  List.intercalate [' '] (rows.map (fun r => pyLowerC (pyStrCellC (r.headD Cell.blank))))

/-- Balance-sheet keywords of `detect_statement_type_by_content`. -/
def bsKeywords : List String :=
  ["assets", "liabilities", "cash and cash equivalents", "accounts receivable",
   "inventories", "stockholders equity", "property and equipment", "current assets"]

/-- Income-statement keywords. -/
def incKeywords : List String :=
  ["net revenues", "revenue", "cost of revenues", "gross profit", "operating expenses",
   "research and development", "selling, general and administrative", "net income",
   "net loss", "loss from operations", "income from operations"]

/-- Cash-flow keywords. -/
def cfKeywords : List String :=
  ["cash flows", "operating activities", "investing activities", "financing activities",
   "net increase", "net decrease", "depreciation", "capital expenditures"]

/-- Equity keywords. -/
def eqKeywords : List String :=
  ["common stock", "additional paid-in capital", "retained earnings",
   "accumulated other comprehensive", "treasury stock", "stock-based compensation expense",
   "issuance of common stock"]

/-- Comprehensive-income keywords. -/
def ciKeywords : List String :=
  ["comprehensive income", "comprehensive loss", "unrealized gain", "unrealized loss"]

/-- `sum(1 for kw in kws if kw in all_text)`. -/
def keywordScore (kws : List String) (text : List Char) : ℕ :=
  kws.countP (fun kw => containsSubC kw.toList text)

/-- The `scores` dict in its insertion order (which is also the tie-breaking
priority order). -/
def scoreTable (rows : List (List Cell)) : List (String × ℕ) :=
  [(("balance_sheet"), keywordScore bsKeywords (firstColTextC rows)),
   (("income_statement"), keywordScore incKeywords (firstColTextC rows)),
   (("cash_flow"), keywordScore cfKeywords (firstColTextC rows)),
   (("equity"), keywordScore eqKeywords (firstColTextC rows)),
   (("comprehensive_income"), keywordScore ciKeywords (firstColTextC rows))]

/-- Python `max(scores, key=scores.get)`: the first key attaining the maximal
score, scanning in insertion order. -/
def firstArgmax : List (String × ℕ) → Option (String × ℕ)
  | [] => none
  | p :: ps =>
    match firstArgmax ps with
    | none => some p
    | some q => if q.2 > p.2 then some q else some p

/-- `detect_statement_type_by_content`: grids that are empty or have fewer
than three rows are `unknown`; otherwise the first maximal-score category wins
when its score is at least 2, else `unknown`. -/
def detectStatementTypeByContent (rows : List (List Cell)) : String :=
  if rows.length < 3 ∨ (rows.headD []).length = 0 then ("unknown")
  else
    match firstArgmax (scoreTable rows) with
    | some p => if 2 ≤ p.2 then p.1 else ("unknown")
    | none => ("unknown")

/-- The maximal score of a score table. -/
def maxScore (l : List (String × ℕ)) : ℕ := l.foldr (fun p m => max p.2 m) 0

/-- The classification rule in the words of the claim (no size guard): the
category with the highest keyword count wins if and only if that count is at
least 2, otherwise `unknown`; ties are broken by the fixed priority order
`balance_sheet > income_statement > cash_flow > equity > comprehensive_income`
(the order of `scoreTable`). -/
def claimClassifyCore (rows : List (List Cell)) : String :=
  if 2 ≤ maxScore (scoreTable rows) then
    match (scoreTable rows).find? (fun p => p.2 == maxScore (scoreTable rows)) with
    | some p => p.1
    | none => ("unknown")
  else ("unknown")

theorem firstArgmax_eq_none_iff {l : List (String × ℕ)} : firstArgmax l = none ↔ l = [] := by
  cases l with
  | nil => simp [firstArgmax]
  | cons p ps =>
    simp only [firstArgmax]
    cases firstArgmax ps with
    | none => simp
    | some q =>
      show (if q.2 > p.2 then some q else some p) = none ↔ p :: ps = []
      split_ifs <;> simp

theorem firstArgmax_score : ∀ {l : List (String × ℕ)} {q : String × ℕ},
    firstArgmax l = some q → q.2 = maxScore l := by
  intro l
  induction l with
  | nil => intro q hq; exact absurd hq (by simp [firstArgmax])
  | cons p ps ih =>
    intro q hq
    simp only [firstArgmax] at hq
    cases hf : firstArgmax ps with
    | none =>
      rw [hf] at hq
      have hq2 : some p = some q := hq
      have hps : ps = [] := firstArgmax_eq_none_iff.mp hf
      rcases Option.some_inj.mp hq2 with rfl
      subst hps
      show p.2 = max p.2 (maxScore [])
      simp [maxScore]
    | some r =>
      rw [hf] at hq
      have hq2 : (if r.2 > p.2 then some r else some p) = some q := hq
      have hr := ih hf
      show q.2 = max p.2 (maxScore ps)
      by_cases hgt : r.2 > p.2
      · rw [if_pos hgt] at hq2
        rcases Option.some_inj.mp hq2 with rfl
        omega
      · rw [if_neg hgt] at hq2
        rcases Option.some_inj.mp hq2 with rfl
        omega

theorem firstArgmax_eq_find? : ∀ l : List (String × ℕ),
    firstArgmax l = l.find? (fun p => p.2 == maxScore l) := by
  intro l
  induction l with
  | nil => rfl
  | cons p ps ih =>
    simp only [firstArgmax]
    cases hf : firstArgmax ps with
    | none =>
      have hps : ps = [] := firstArgmax_eq_none_iff.mp hf
      subst hps
      show some p = List.find? (fun q => q.2 == maxScore [p]) [p]
      have hmx : maxScore [p] = p.2 := by simp [maxScore]
      rw [List.find?_cons_of_pos _ (by rw [hmx]; exact beq_self_eq_true p.2)]
    | some r =>
      have hr := firstArgmax_score hf
      show (if r.2 > p.2 then some r else some p) =
        List.find? (fun q => q.2 == maxScore (p :: ps)) (p :: ps)
      by_cases hgt : r.2 > p.2
      · rw [if_pos hgt]
        have hmx : maxScore (p :: ps) = maxScore ps := by
          show max p.2 (maxScore ps) = maxScore ps
          omega
        rw [List.find?_cons_of_neg _ (by rw [hmx]; simp only [beq_iff_eq]; omega), hmx, ← ih, hf]
      · rw [if_neg hgt]
        have hmx : maxScore (p :: ps) = p.2 := by
          show max p.2 (maxScore ps) = p.2
          omega
        rw [List.find?_cons_of_pos _ (by rw [hmx]; exact beq_self_eq_true p.2)]

/-- C4 amended: on grids with at least 3 rows and at least one column the
classifier returns exactly the claim's rule (highest keyword count wins iff
the count is ≥ 2, ties broken in the fixed priority order); smaller or empty
grids return `unknown` regardless of their keyword counts.  In particular the
four-row balance-sheet example classifies as `balance_sheet`. -/
theorem detectStatementType_spec :
    (∀ rows, detectStatementTypeByContent rows =
      if 3 ≤ rows.length ∧ 0 < (rows.headD []).length then claimClassifyCore rows
      else ("unknown"))
    ∧ detectStatementTypeByContent
        [[Cell.str ("Total assets")], [Cell.str ("Total liabilities")],
         [Cell.str ("Stockholders equity")], [Cell.str ("Cash and cash equivalents")]] =
      ("balance_sheet") := by
  constructor
  · intro rows
    rw [detectStatementTypeByContent]
    by_cases hg : rows.length < 3 ∨ (rows.headD []).length = 0
    · rw [if_pos hg, if_neg (by omega)]
    · rw [if_neg hg, if_pos (by omega)]
      cases hq : firstArgmax (scoreTable rows) with
      | none =>
        exact absurd (firstArgmax_eq_none_iff.mp hq) (by simp [scoreTable])
      | some q =>
        have hsc : q.2 = maxScore (scoreTable rows) := firstArgmax_score hq
        show (if 2 ≤ q.2 then q.1 else ("unknown")) = claimClassifyCore rows
        rw [claimClassifyCore]
        by_cases h2 : 2 ≤ q.2
        · rw [if_pos h2, if_pos (by omega)]
          rw [← firstArgmax_eq_find? (scoreTable rows), hq]
        · rw [if_neg h2, if_neg (by omega)]
  · decide

/-- C4 counterexample: a two-row grid whose balance-sheet keyword count is 2
must, per the claim, classify as `balance_sheet`, but the code returns
`unknown` for every grid with fewer than three rows. -/
theorem detectStatementType_small_grid_counterexample :
    detectStatementTypeByContent [[Cell.str ("Total assets")], [Cell.str ("Total liabilities")]] =
      ("unknown")
      ∧ claimClassifyCore [[Cell.str ("Total assets")], [Cell.str ("Total liabilities")]] =
        ("balance_sheet")
      ∧ ("unknown" : String) ≠ ("balance_sheet") := by
  refine ⟨rfl, by decide, by decide⟩

/-! ### Period-column naming of `extract_financial_table_v2` -/

/-- Python regex `\w` (ASCII model): letters, digits, underscore. -/
def isWordChar (c : Char) : Bool := c.isAlphanum || c == '_'

/-- `re.sub(r'\s+', '_', s)`: every maximal whitespace run becomes one
underscore.  The flag records whether the previous character was part of a
run already replaced. -/
def collapseSpacesGo : Bool → List Char → List Char
  | _, [] => []
  | inRun, c :: cs =>
    if isSpaceChar c then
      (if inRun then [] else ['_']) ++ collapseSpacesGo true cs
    else c :: collapseSpacesGo false cs

/-- `re.sub(r'\s+', '_', s)`. -/
def collapseSpacesC (cs : List Char) : List Char := collapseSpacesGo false cs

/-- The column-name sanitization of `extract_financial_table_v2`:
`re.sub(r'[^\w\s]', '', col_str)`, then `re.sub(r'\s+', '_', ...)`, then
`.lower()[:30]`. -/
def sanitizeC (cs : List Char) : List Char :=
  ((collapseSpacesC (cs.filter (fun c => isWordChar c || isSpaceChar c))).map
    Char.toLower).take 30

/-- Does the 4-character year pattern `20\d\d` match at the start? -/
def isYearAt (cs : List Char) : Option (List Char) :=
  match cs with
  | '2' :: '0' :: c :: d :: _ =>
    if c.isDigit && d.isDigit then some ['2', '0', c, d] else none
  | _ => none

/-- `re.search(r'(20\d{2})', s)`: the first position where `20\d\d` matches,
returning the matched four characters. -/
def findYearC : List Char → Option (List Char)
  | [] => none
  | c :: cs =>
    match isYearAt (c :: cs) with
    | some y => some y
    | none => findYearC cs

/-- `str(col).strip()` on a header cell. -/
def headerStr (col : Cell) : List Char := pyStripC (pyStrCellC col)

/-- The `pd.isna(col) or col_str in ['', 'nan', 'None', '​']` test of the
column-naming loop. -/
def isNaLikeHeader (col : Cell) : Bool :=
  col == Cell.blank || headerStr col == [] || headerStr col == ("nan").toList ||
    headerStr col == ("None").toList || headerStr col == ['​']

/-- The name given to the period column at position `i ≥ 1` by
`extract_financial_table_v2`: `fy_<year>` when `20\d\d` occurs in the header,
the positional `col_<i>` when the header is missing/empty-like or sanitizes to
the empty string, otherwise the sanitized header text. -/
def periodColName (i : ℕ) (col : Cell) : String :=
  match findYearC (headerStr col) with
  | some y => String.mk ('f' :: 'y' :: '_' :: y)
  | none =>
    if isNaLikeHeader col then String.mk ('c' :: 'o' :: 'l' :: '_' :: natDigits i)
    else if sanitizeC (headerStr col) = [] then
      String.mk ('c' :: 'o' :: 'l' :: '_' :: natDigits i)
    else String.mk (sanitizeC (headerStr col))

/-- The full column-naming rule: position 0 is the line-item column, later
positions are period columns. -/
def columnNameV2 (i : ℕ) (col : Cell) : String :=
  if i = 0 then ("line_item") else periodColName i col

/-- C5 counterexample: the period-column header `"fiscal year"` (no 4-digit
year, not empty) is named by the sanitized header text `"fiscal_year"`, which
is neither an `fy_<year>` label nor a positional placeholder (`col_1` /
`period_1`) — a third name shape the claim excludes. -/
theorem periodColName_counterexample :
    periodColName 1 (Cell.str ("fiscal year")) = ("fiscal_year")
      ∧ (("fy_").toList.isPrefixOf (("fiscal_year").toList)) = false
      ∧ ("fiscal_year" : String) ≠ ("col_1")
      ∧ ("fiscal_year" : String) ≠ ("period_1") := by
  refine ⟨by decide, by decide, by decide, by decide⟩

/-- C5 amended: every period column name has exactly one of three shapes —
`fy_<year>` exactly when `20\d\d` occurs in the stripped header text;
`col_<i>` when no year is found and the header is missing/placeholder-like or
sanitizes to empty; otherwise the sanitized header text. -/
theorem periodColName_spec :
    ∀ i col,
      (∀ y, findYearC (headerStr col) = some y →
          periodColName i col = String.mk ('f' :: 'y' :: '_' :: y))
        ∧ (findYearC (headerStr col) = none →
            (isNaLikeHeader col = true ∨ sanitizeC (headerStr col) = []) →
            periodColName i col = String.mk ('c' :: 'o' :: 'l' :: '_' :: natDigits i))
        ∧ (findYearC (headerStr col) = none → isNaLikeHeader col = false →
            sanitizeC (headerStr col) ≠ [] →
            periodColName i col = String.mk (sanitizeC (headerStr col))) := by
  intro i col
  refine ⟨?_, ?_, ?_⟩
  · intro y hy
    rw [periodColName, hy]
  · intro hn hcase
    rw [periodColName, hn]
    rcases hcase with hna | hs
    · rw [if_pos hna]
    · by_cases hna : isNaLikeHeader col = true
      · rw [if_pos hna]
      · rw [if_neg hna, if_pos hs]
  · intro hn hna hs
    rw [periodColName, hn, if_neg (by rw [hna]; exact Bool.false_ne_true), if_neg hs]

/-- Witness for `periodColName_spec`: a realistic header containing `2023`
receives the explicit fiscal-year label `fy_2023`. -/
theorem periodColName_spec_witness :
    findYearC (headerStr (Cell.str ("Year Ended March 31, 2023"))) = some (("2023").toList)
      ∧ periodColName 1 (Cell.str ("Year Ended March 31, 2023")) = ("fy_2023") := by
  constructor
  · decide
  · have h := (periodColName_spec 1 (Cell.str ("Year Ended March 31, 2023"))).1
      (("2023").toList) (by decide)
    rw [h]
    decide

/-! ### `ExcelParser.detect_table_boundaries` -/

/-- `row.notna().sum()`. -/
def rowNonNullCount (row : List Cell) : ℕ := row.countP Cell.notna

/-- `row.notna().sum() / len(row)`.  On a zero-width row Python computes the
numpy quotient `0/0 = nan`, and `nan > 0.3` is false; here the rational
convention `0/0 = 0` makes the same comparison false, so the two models
agree on every row. -/
def nonNullFrac (row : List Cell) : ℚ := (rowNonNullCount row : ℚ) / (row.length : ℚ)

/-- The start-row criterion: more than 30% of the cells are non-missing. -/
def startRowPred (row : List Cell) : Bool := decide ((3 : ℚ) / 10 < nonNullFrac row)

/-- The end-row criterion: at least two non-missing cells. -/
def endRowPred (row : List Cell) : Bool := decide (1 < rowNonNullCount row)

/-- `ExcelParser.detect_table_boundaries`: the first row exceeding the 30%
ratio (default 0), and one past the last row with at least two non-missing
cells (default `len(df)`), found by the downward scan over the reversed
row list. -/
def detectTableBoundaries (rows : List (List Cell)) : ℕ × ℕ :=
  (match rows.findIdx? startRowPred with
   | some i => i
   | none => 0,
   match rows.reverse.findIdx? endRowPred with
   | some j => rows.length - j
   | none => rows.length)

theorem getD_nil_eq_getElem {l : List (List Cell)} {i : ℕ} (h : i < l.length) :
    l.getD i [] = l[i] := by
  rw [List.getD_eq_getElem?_getD, List.getElem?_eq_getElem h]
  rfl

/-- C7: `detect_table_boundaries` returns exactly the claimed pair — the
start is the first row whose non-missing ratio exceeds 30% (0 when no row
qualifies), the end is one past the last row with at least two non-missing
cells (`len(grid)` when no row qualifies) — and on an all-missing grid the
result is `(0, len(grid))`.  The embedding is a total function: no input
raises. -/
theorem detectTableBoundaries_spec (rows : List (List Cell)) :
    (((∀ i, i < rows.length → startRowPred (rows.getD i []) = false) ∧
        (detectTableBoundaries rows).1 = 0) ∨
      ((detectTableBoundaries rows).1 < rows.length ∧
        startRowPred (rows.getD (detectTableBoundaries rows).1 []) = true ∧
        ∀ j, j < (detectTableBoundaries rows).1 → startRowPred (rows.getD j []) = false))
    ∧ (((∀ i, i < rows.length → endRowPred (rows.getD i []) = false) ∧
        (detectTableBoundaries rows).2 = rows.length) ∨
      (0 < (detectTableBoundaries rows).2 ∧ (detectTableBoundaries rows).2 ≤ rows.length ∧
        endRowPred (rows.getD ((detectTableBoundaries rows).2 - 1) []) = true ∧
        ∀ j, (detectTableBoundaries rows).2 ≤ j → j < rows.length →
          endRowPred (rows.getD j []) = false))
    ∧ ((∀ r ∈ rows, rowNonNullCount r = 0) → detectTableBoundaries rows = (0, rows.length)) := by
  refine ⟨?_, ?_, ?_⟩
  · cases hf : rows.findIdx? startRowPred with
    | none =>
      left
      constructor
      · intro i hi
        have hmem : rows.getD i [] ∈ rows := by
          rw [getD_nil_eq_getElem hi]
          exact List.getElem_mem hi
        exact List.findIdx?_eq_none_iff.mp hf _ hmem
      · simp only [detectTableBoundaries, hf]
    | some i =>
      right
      obtain ⟨hlt, hp, hprev⟩ := List.findIdx?_eq_some_iff_getElem.mp hf
      have hd : (detectTableBoundaries rows).1 = i := by
        simp only [detectTableBoundaries, hf]
      rw [hd]
      refine ⟨hlt, by rw [getD_nil_eq_getElem hlt]; exact hp, ?_⟩
      intro j hj
      have hjl : j < rows.length := hj.trans hlt
      rw [getD_nil_eq_getElem hjl]
      have := hprev j hj
      simpa using this
  · cases hf : rows.reverse.findIdx? endRowPred with
    | none =>
      left
      constructor
      · intro i hi
        have hmem : rows.getD i [] ∈ rows.reverse := by
          rw [getD_nil_eq_getElem hi]
          exact List.mem_reverse.mpr (List.getElem_mem hi)
        exact List.findIdx?_eq_none_iff.mp hf _ hmem
      · simp only [detectTableBoundaries, hf]
    | some j =>
      right
      obtain ⟨hlt, hp, hprev⟩ := List.findIdx?_eq_some_iff_getElem.mp hf
      rw [List.length_reverse] at hlt
      have hd : (detectTableBoundaries rows).2 = rows.length - j := by
        simp only [detectTableBoundaries, hf]
      rw [hd]
      have hb2 : j < rows.reverse.length := by
        rw [List.length_reverse]
        omega
      have hgd : rows.reverse.getD j [] = rows.getD (rows.length - 1 - j) [] := by
        rw [getD_nil_eq_getElem hb2,
          getD_nil_eq_getElem (by omega : rows.length - 1 - j < rows.length)]
        exact List.getElem_reverse hb2
      refine ⟨by omega, by omega, ?_, ?_⟩
      · have hb : rows.length - j - 1 = rows.length - 1 - j := by omega
        rw [hb, ← hgd, getD_nil_eq_getElem hb2]
        exact hp
      · intro t ht htl
        have hj2 : rows.length - 1 - t < j := by omega
        have hb4 : rows.length - 1 - t < rows.reverse.length := by
          rw [List.length_reverse]
          omega
        have hidx : rows.length - 1 - (rows.length - 1 - t) = t := by omega
        have hgd2 : rows.reverse.getD (rows.length - 1 - t) [] = rows.getD t [] := by
          rw [getD_nil_eq_getElem hb4, getD_nil_eq_getElem htl, List.getElem_reverse hb4]
          simp only [hidx]
        have hx : ¬ endRowPred (rows.reverse.getD (rows.length - 1 - t) []) = true := by
          rw [getD_nil_eq_getElem hb4]
          exact hprev (rows.length - 1 - t) hj2
        rw [← hgd2]
        simpa using hx

  · intro hall
    have hs : rows.findIdx? startRowPred = none := by
      rw [List.findIdx?_eq_none_iff]
      intro r hr
      rw [startRowPred, decide_eq_false]
      rw [nonNullFrac, hall r hr]
      norm_num
    have he : rows.reverse.findIdx? endRowPred = none := by
      rw [List.findIdx?_eq_none_iff]
      intro r hr
      rw [endRowPred, decide_eq_false]
      rw [hall r (List.mem_reverse.mp hr)]
      omega
    simp only [detectTableBoundaries, hs, he]

/-- Witness for `detectTableBoundaries_spec`: a one-row all-missing grid gets
the permissive fallback `(0, 1)`. -/
theorem detectTableBoundaries_spec_witness :
    rowNonNullCount [Cell.blank] = 0 ∧ detectTableBoundaries [[Cell.blank]] = (0, 1) :=
  ⟨rfl, (detectTableBoundaries_spec [[Cell.blank]]).2.2 (by decide)⟩

/-! ### `DataConsolidator.extract_key_financial_items` -/

/-- The metadata columns excluded from value extraction. -/
def excludedCols : List String :=
  ["year", "line_item", "filename", "company", "form_type", "filing_date",
   "source_file", "statement_type", "sheet_name"]

/-- The fixed quarter-end-date columns used by the quarterly-data check. -/
def quarterlyColNames : List String :=
  ["june_30", "september_30", "december_31", "march_31"]

/-- `row[col]` by column label.  A row is a cell list aligned with the column
list; the consolidated frames come from `pd.read_csv`, which mangles
duplicate column labels, so labels are unique and the first matching index is
the column's position. -/
def rowCell (cols : List String) (row : List Cell) (c : String) : Option Cell :=
  match cols.findIdx? (fun x => x == c) with
  | some i => row[i]?
  | none => none

/-- `pd.notna(val) and val != ''`. -/
def cellPresent (cell : Cell) : Bool := Cell.notna cell && !(cell == Cell.str (""))

/-- The number of quarter-end-date columns holding non-missing, non-empty
values on the row (`quarterly_cols_with_data`). -/
def quarterlyCount (cols : List String) (row : List Cell) : ℕ :=
  quarterlyColNames.countP (fun c =>
    match rowCell cols row c with
    | some cell => cellPresent cell
    | none => false)

/-- The sheet-provenance priority ladder of `extract_key_financial_items`,
applied to the lowercased sheet name. -/
def pySheetPriority (s : List Char) : ℕ :=
  if containsSubC (("financial statement").toList) s then 0
  else if containsSubC (("consolidated").toList) s &&
      (containsSubC (("operation").toList) s || containsSubC (("balance").toList) s) then 1
  else if containsSubC (("operations").toList) s || containsSubC (("income").toList) s then 2
  else if containsSubC (("balance").toList) s then 3
  else if containsSubC (("valuation").toList) s ||
      containsSubC (("contingent").toList) s then 4
  else if containsSubC (("consideration").toList) s then 8
  else if containsSubC (("management").toList) s ||
      containsSubC (("selected financial").toList) s then 9
  else 5

/-- `str(row.get('sheet_name', '')).lower()`: the empty string when the
column is absent. -/
def sheetNameLower (cols : List String) (row : List Cell) : List Char :=
  match rowCell cols row ("sheet_name") with
  | some cell => pyLowerC (pyStrCellC cell)
  | none => []

/-- `float(val)` on a cell: numbers pass through, strings are parsed, and the
`except (ValueError, TypeError)` fallback is `none` (the missing cell is
already screened out by `pd.notna`). -/
def cellFloat (cell : Cell) : Option ℚ :=
  match cell with
  | Cell.num v => some v
  | Cell.str s => (pyFloatD s.toList).map decVal
  | Cell.blank => none

/-- One candidate of the resolution: `(sheet_priority, col_idx, abs(num_val))`. -/
structure Cand where
  pri : ℕ
  colIdx : ℕ
  val : ℚ
deriving DecidableEq

/-- The literal `0.01` of `abs(num_val) > 0.01`, as a raw rational so that it
kernel-reduces. -/
def centi : ℚ := ⟨1, 100, by norm_num, Nat.coprime_one_left 100⟩

/-- The value-collection loop over `enumerate(col_list)`: positions `i, i+1,
…` over the remaining columns and aligned cells, skipping metadata columns,
absent/empty cells, unparseable values, and magnitudes at most `0.01`. -/
def rowCandsAux (pri : ℕ) : ℕ → List String → List Cell → List Cand
  | _, [], _ => []
  | _, _ :: _, [] => []
  | i, c :: cs, x :: xs =>
    (if excludedCols.contains c then []
     else
       if cellPresent x then
         match cellFloat x with
         | some v => if centi < |v| then [⟨pri, i, |v|⟩] else []
         | none => []
       else []) ++ rowCandsAux pri (i + 1) cs xs

/-- The candidates a single row contributes: none at all when the row looks
quarterly (at least two quarter-end columns populated); otherwise the row's
values tagged with the sheet priority and column position. -/
def rowCands (cols : List String) (row : List Cell) : List Cand :=
  if 2 ≤ quarterlyCount cols row then []
  else rowCandsAux (pySheetPriority (sheetNameLower cols row)) 0 cols row

/-- `year_data['line_item'].str.lower().str.contains(pattern.lower(),
na=False, regex=False)`: substring containment on string labels, false on
missing or non-string labels. -/
def lineItemMatches (pat : String) (cols : List String) (row : List Cell) : Bool :=
  match rowCell cols row ("line_item") with
  | some (Cell.str s) => containsSubC (pyLowerC pat.toList) (pyLowerC s.toList)
  | _ => false

/-- The `for name_pattern in possible_names` loop: the first pattern whose
matching rows contribute at least one candidate wins (`if all_values: break`);
patterns with no matching rows, or whose rows are all skipped, fall through
to the next pattern. -/
def candsFor (cols : List String) (rows : List (List Cell)) : List String → List Cand
  | [] => []
  | p :: ps =>
    if (rows.filter (lineItemMatches p cols)).isEmpty then candsFor cols rows ps
    else
      if (((rows.filter (lineItemMatches p cols)).map (rowCands cols)).flatten).isEmpty then
        candsFor cols rows ps
      else ((rows.filter (lineItemMatches p cols)).map (rowCands cols)).flatten

/-- The sort key comparison `(x[0], x[1])`: strictly smaller priority, or
equal priority and strictly smaller column index. -/
def ltCand (a b : Cand) : Bool :=
  decide (a.pri < b.pri) || (a.pri == b.pri && decide (a.colIdx < b.colIdx))

/-- Stable insertion for the model of Python's stable `list.sort(key=...)`:
an element moves past exactly the elements strictly below it. -/
def insertCand (a : Cand) : List Cand → List Cand
  | [] => [a]
  | b :: bs => if ltCand b a then b :: insertCand a bs else a :: b :: bs

/-- Stable sort by `(priority, column index)` — the model of
`all_values.sort(key=lambda x: (x[0], x[1]))`. -/
def isortCand : List Cand → List Cand
  | [] => []
  | a :: rest => insertCand a (isortCand rest)

/-- `v > 100`: the magnitude heuristic's largeness test. -/
def isBigCand (c : Cand) : Bool := decide ((100 : ℚ) < c.val)

/-- The selection step: `large_values[0][2]` when any candidate exceeds 100,
else `all_values[0][2]`, and `None` when there are no candidates at all. -/
def resolveValue (cs : List Cand) : Option ℚ :=
  match ((isortCand cs).filter isBigCand).head? with
  | some c => some c.val
  | none => ((isortCand cs).head?).map Cand.val

/-- One `(year, standard_name)` resolution of
`extract_key_financial_items`: collect candidates pattern by pattern, then
select. -/
def resolveItem (cols : List String) (rows : List (List Cell)) (pats : List String) :
    Option ℚ :=
  resolveValue (candsFor cols rows pats)

/-- The derived `net_income_final` column of
`create_master_income_statement`: `net_income` when present, else the negated
`net_loss`, else missing. -/
def netIncomeFinal (ni nl : Option ℚ) : Option ℚ :=
  match ni with
  | some x => some x
  | none =>
    match nl with
    | some y => some (-y)
    | none => none

theorem ltCand_iff {a b : Cand} :
    ltCand a b = true ↔ (a.pri < b.pri ∨ (a.pri = b.pri ∧ a.colIdx < b.colIdx)) := by
  simp [ltCand, Bool.or_eq_true, Bool.and_eq_true, beq_iff_eq, decide_eq_true_eq]

theorem ltCand_false_iff {a b : Cand} :
    ltCand a b = false ↔ ¬(a.pri < b.pri ∨ (a.pri = b.pri ∧ a.colIdx < b.colIdx)) := by
  rw [← ltCand_iff]
  cases h : ltCand a b <;> simp

theorem mem_insertCand {a x : Cand} : ∀ {l : List Cand}, x ∈ insertCand a l ↔ x = a ∨ x ∈ l := by
  intro l
  induction l with
  | nil => simp [insertCand]
  | cons b bs ih =>
    rw [insertCand]
    by_cases hlt : ltCand b a = true
    · rw [if_pos hlt]
      rw [List.mem_cons, ih, List.mem_cons]
      tauto
    · rw [if_neg hlt]
      rw [List.mem_cons, List.mem_cons]

theorem insertCand_pairwise {a : Cand} :
    ∀ {l : List Cand}, List.Pairwise (fun x y => ltCand y x = false) l →
      List.Pairwise (fun x y => ltCand y x = false) (insertCand a l) := by
  intro l
  induction l with
  | nil => intro h; simp [insertCand]
  | cons b bs ih =>
    intro h
    rcases List.pairwise_cons.mp h with ⟨hb, hbs⟩
    rw [insertCand]
    by_cases hlt : ltCand b a = true
    · rw [if_pos hlt]
      refine List.pairwise_cons.mpr ⟨?_, ih hbs⟩
      intro w hw
      rcases mem_insertCand.mp hw with rfl | hw2
      · rw [ltCand_iff] at hlt
        rw [ltCand_false_iff]
        omega
      · exact hb w hw2
    · rw [if_neg hlt]
      refine List.pairwise_cons.mpr ⟨?_, h⟩
      intro w hw
      have hba : ltCand b a = false := by
        cases h2 : ltCand b a
        · rfl
        · exact absurd h2 hlt
      rcases List.mem_cons.mp hw with rfl | hw2
      · exact hba
      · have hwb := hb w hw2
        rw [ltCand_false_iff] at hba hwb ⊢
        omega

theorem isortCand_pairwise :
    ∀ l : List Cand, List.Pairwise (fun x y => ltCand y x = false) (isortCand l) := by
  intro l
  induction l with
  | nil => simp [isortCand]
  | cons a rest ih => exact insertCand_pairwise ih

theorem mem_isortCand {x : Cand} : ∀ {l : List Cand}, x ∈ isortCand l ↔ x ∈ l := by
  intro l
  induction l with
  | nil => simp [isortCand]
  | cons a rest ih =>
    rw [isortCand, mem_insertCand, ih, List.mem_cons]

/-- The earliest candidate with minimal `(priority, column)` key among those
satisfying `p` — the spec-level description of what a stable sort followed by
`filter`/`[0]` selects. -/
def firstMinBy (p : Cand → Bool) : List Cand → Option Cand
  | [] => none
  | c :: cs =>
    match firstMinBy p cs with
    | none => if p c then some c else none
    | some y => if p c then (if ltCand y c then some y else some c) else some y

theorem head?_filter_insertCand {p : Cand → Bool} {a : Cand} :
    ∀ {l : List Cand}, List.Pairwise (fun x y => ltCand y x = false) l →
      ((insertCand a l).filter p).head? =
        (match (l.filter p).head? with
         | none => if p a then some a else none
         | some y => if ltCand y a then some y else if p a then some a else some y) := by
  intro l
  induction l with
  | nil =>
    intro _
    rw [insertCand]
    cases hpa : p a <;> simp [List.filter, hpa]
  | cons z zs ih =>
    intro h
    rcases List.pairwise_cons.mp h with ⟨hz, hzs⟩
    rw [insertCand]
    by_cases hlt : ltCand z a = true
    · rw [if_pos hlt]
      rw [List.filter_cons, List.filter_cons]
      by_cases hpz : p z = true
      · rw [if_pos hpz, if_pos hpz, List.head?_cons, List.head?_cons]
        show some z = if ltCand z a = true then some z else if p a = true then some a else some z
        rw [if_pos hlt]
      · rw [if_neg hpz, if_neg hpz]
        exact ih hzs
    · rw [if_neg hlt]
      have hba : ltCand z a = false := by
        cases h2 : ltCand z a
        · rfl
        · exact absurd h2 hlt
      rw [List.filter_cons]
      by_cases hpa : p a = true
      · rw [if_pos hpa, List.head?_cons]
        cases hh : ((z :: zs).filter p).head? with
        | none =>
          show some a = if p a = true then some a else none
          rw [if_pos hpa]
        | some y =>
          have hy : ltCand y a = false := by
            have hymem : y ∈ z :: zs :=
              List.mem_of_mem_filter (List.mem_of_mem_head? hh)
            rcases List.mem_cons.mp hymem with rfl | hy2
            · exact hba
            · have hyz := hz y hy2
              rw [ltCand_false_iff] at hba hyz ⊢
              omega
          show some a = if ltCand y a = true then some y else if p a = true then some a else some y
          simp [hy, hpa]
      · rw [if_neg hpa]
        cases hh : ((z :: zs).filter p).head? with
        | none =>
          show none = if p a = true then some a else none
          rw [if_neg hpa]
        | some y =>
          show some y = if ltCand y a = true then some y else if p a = true then some a else some y
          by_cases hya : ltCand y a = true
          · rw [if_pos hya]
          · rw [if_neg hya, if_neg hpa]

theorem head?_filter_isortCand (p : Cand → Bool) :
    ∀ l : List Cand, ((isortCand l).filter p).head? = firstMinBy p l := by
  intro l
  induction l with
  | nil => rfl
  | cons c cs ih =>
    rw [isortCand, head?_filter_insertCand (isortCand_pairwise cs), ih, firstMinBy]
    cases firstMinBy p cs with
    | none => rfl
    | some y =>
      show (if ltCand y c then some y else if p c then some c else some y) =
        (if p c then (if ltCand y c then some y else some c) else some y)
      split_ifs <;> rfl

theorem head?_isortCand :
    ∀ l : List Cand, (isortCand l).head? = firstMinBy (fun _ => true) l := by
  intro l
  have h := head?_filter_isortCand (fun _ => true) l
  rwa [List.filter_true] at h

/-- The resolution rule as the claim words it: rank candidates by
`(priority, column)`; the magnitude heuristic prefers a `>100` candidate over
smaller ones only when both exist at the best-ranked candidate's priority
tier; otherwise the best-ranked candidate is selected regardless of
magnitude.  (Spec-side definition, written from the claim for comparison with
the code's `resolveValue`.) -/
def claimResolveValue (cs : List Cand) : Option ℚ :=
  match firstMinBy (fun _ => true) cs with
  | none => none
  | some best =>
    if (cs.filter (fun c => c.pri == best.pri)).any isBigCand &&
        (cs.filter (fun c => c.pri == best.pri)).any (fun c => !(isBigCand c)) then
      (firstMinBy isBigCand (cs.filter (fun c => c.pri == best.pri))).map Cand.val
    else some best.val

/-- The rational `33.4` (`167/5`), as a raw rational so that it
kernel-reduces. -/
def q334 : ℚ := ⟨167, 5, by norm_num, by norm_num⟩

/-- C1 amended: the resolver ranks candidates by sheet-provenance priority
and then column position, but applies the magnitude heuristic across the
whole candidate set — whenever any candidate has value above 100, the
best-ranked such candidate is selected even if a small candidate sits at a
strictly better priority tier; only when no candidate exceeds 100 is the
best-ranked candidate overall selected.  In particular, a priority-1
candidate `33400` beats a priority-9 candidate `33.4`. -/
theorem resolveValue_spec :
    (∀ cs, resolveValue cs =
      match firstMinBy isBigCand cs with
      | some c => some c.val
      | none => (firstMinBy (fun _ => true) cs).map Cand.val)
    ∧ resolveValue [⟨1, 1, 33400⟩, ⟨9, 1, q334⟩] = some 33400 := by
  constructor
  · intro cs
    rw [resolveValue, head?_filter_isortCand, head?_isortCand]
  · decide

/-- C1 counterexample: with a priority-1 candidate `33.4` and a priority-9
candidate `150`, the two candidates sit at different priority tiers, so the
claim requires the best-ranked candidate `33.4`; the code selects `150`
because the `>100` filter is applied across all tiers. -/
theorem resolveValue_counterexample :
    resolveValue [⟨1, 1, q334⟩, ⟨9, 1, 150⟩] = some 150
      ∧ claimResolveValue [⟨1, 1, q334⟩, ⟨9, 1, 150⟩] = some q334
      ∧ q334 ≠ (150 : ℚ) := by
  refine ⟨by decide, by decide, by decide⟩

theorem rowCands_eq_nil_of_quarterly {cols : List String} {row : List Cell}
    (h : 2 ≤ quarterlyCount cols row) : rowCands cols row = [] := by
  rw [rowCands, if_pos h]

theorem flatten_map_filter_of_nil {f : List Cell → List Cand} {q : List Cell → Bool} :
    ∀ {l : List (List Cell)}, (∀ r ∈ l, q r = false → f r = []) →
      ((l.filter q).map f).flatten = (l.map f).flatten := by
  intro l
  induction l with
  | nil => intro _; rfl
  | cons r l ih =>
    intro hf
    rw [List.filter_cons]
    by_cases hq : q r = true
    · rw [if_pos hq]
      rw [List.map_cons, List.map_cons, List.flatten_cons, List.flatten_cons,
        ih (fun x hx => hf x (List.mem_cons_of_mem r hx))]
    · rw [if_neg hq]
      rw [List.map_cons, List.flatten_cons,
        hf r (List.mem_cons_self r l) (by simpa using hq),
        List.nil_append, ih (fun x hx => hf x (List.mem_cons_of_mem r hx))]

theorem filter_swap {q q2 : List Cell → Bool} :
    ∀ l : List (List Cell), (l.filter q).filter q2 = (l.filter q2).filter q := by
  intro l
  induction l with
  | nil => rfl
  | cons r l ih =>
    rw [List.filter_cons]
    by_cases h1 : q r = true
    · rw [if_pos h1, List.filter_cons]
      by_cases h2 : q2 r = true
      · rw [if_pos h2, List.filter_cons, if_pos h2, List.filter_cons, if_pos h1, ih]
      · rw [if_neg h2, List.filter_cons, if_neg h2, ih]
    · rw [if_neg h1, List.filter_cons]
      by_cases h2 : q2 r = true
      · rw [if_pos h2, List.filter_cons, if_neg h1, ih]
      · rw [if_neg h2, ih]

/-- C3: rows that look quarterly (at least two populated quarter-end-date
columns) contribute nothing to resolution — filtering them away first leaves
every `(year, item)` candidate collection unchanged — and consequently a
table all of whose rows are quarterly resolves every item to missing. -/
theorem quarterlyRows_excluded :
    (∀ cols rows pats,
      candsFor cols rows pats =
        candsFor cols (rows.filter (fun r => decide (quarterlyCount cols r < 2))) pats)
    ∧ (∀ cols rows pats, (∀ r ∈ rows, 2 ≤ quarterlyCount cols r) →
        resolveItem cols rows pats = none) := by
  have hnqf : ∀ cols (r : List Cell), (decide (quarterlyCount cols r < 2)) = false →
      rowCands cols r = [] := by
    intro cols r hd
    apply rowCands_eq_nil_of_quarterly
    have := of_decide_eq_false hd
    omega
  have key : ∀ cols rows pats,
      candsFor cols rows pats =
        candsFor cols (rows.filter (fun r => decide (quarterlyCount cols r < 2))) pats := by
    intro cols rows pats
    induction pats with
    | nil => rfl
    | cons p ps ih =>
      rw [candsFor, candsFor]
      have hm' : (rows.filter (fun r => decide (quarterlyCount cols r < 2))).filter
          (lineItemMatches p cols) =
          (rows.filter (lineItemMatches p cols)).filter
            (fun r => decide (quarterlyCount cols r < 2)) := filter_swap rows
      have hveq : ((((rows.filter (lineItemMatches p cols)).filter
            (fun r => decide (quarterlyCount cols r < 2))).map (rowCands cols)).flatten) =
          (((rows.filter (lineItemMatches p cols)).map (rowCands cols)).flatten) :=
        flatten_map_filter_of_nil (fun r _ hf => hnqf cols r hf)
      rw [hm', hveq]
      by_cases hm : (rows.filter (lineItemMatches p cols)).isEmpty = true
      · have hnil : rows.filter (lineItemMatches p cols) = [] := by
          rwa [List.isEmpty_iff] at hm
        rw [hnil]
        simp only [List.filter_nil, List.isEmpty_nil, if_true]
        exact ih
      · rw [if_neg hm]
        by_cases hv : (((rows.filter (lineItemMatches p cols)).map (rowCands cols)).flatten).isEmpty = true
        · rw [if_pos hv]
          by_cases hm2 : ((rows.filter (lineItemMatches p cols)).filter
              (fun r => decide (quarterlyCount cols r < 2))).isEmpty = true
          · rw [if_pos hm2]
            exact ih
          · rw [if_neg hm2, if_pos hv]
            exact ih
        · rw [if_neg hv]
          have hm2 : ((rows.filter (lineItemMatches p cols)).filter
              (fun r => decide (quarterlyCount cols r < 2))).isEmpty = false := by
            by_contra hcon
            have hnil2 : (rows.filter (lineItemMatches p cols)).filter
                (fun r => decide (quarterlyCount cols r < 2)) = [] := by
              cases h2 : ((rows.filter (lineItemMatches p cols)).filter
                  (fun r => decide (quarterlyCount cols r < 2))).isEmpty
              · exact absurd h2 hcon
              · rwa [List.isEmpty_iff] at h2
            rw [← hveq, hnil2] at hv
            exact hv rfl
          rw [hm2]
          simp only [Bool.false_eq_true, if_false]
          rw [if_neg hv]
  refine ⟨key, ?_⟩
  intro cols rows pats hall
  have hnil : rows.filter (fun r => decide (quarterlyCount cols r < 2)) = [] := by
    rw [List.filter_eq_nil_iff]
    intro r hr
    have := hall r hr
    simp only [decide_eq_true_eq]
    omega
  have hempty : ∀ ps, candsFor cols ([] : List (List Cell)) ps = [] := by
    intro ps
    induction ps with
    | nil => rfl
    | cons p ps ih => rw [candsFor]; simp only [List.filter_nil, List.isEmpty_nil, if_true]; exact ih
  rw [resolveItem, key cols rows pats, hnil, hempty]
  rfl

/-- Column list of the all-quarterly witness table. -/
def qCols : List String :=
  ["line_item", "june_30", "september_30", "december_31", "march_31", "sheet_name"]

/-- A row carrying four populated quarter-end columns. -/
def qRow : List Cell :=
  [Cell.str ("Net revenue"), Cell.num 1, Cell.num 2, Cell.num 3, Cell.num 4,
   Cell.str ("Quarterly Results")]

/-- Witness for `quarterlyRows_excluded`: a sheet whose single row carries
four populated quarter-end columns contributes nothing — the item resolves to
missing. -/
theorem quarterlyRows_excluded_witness :
    2 ≤ quarterlyCount qCols qRow
      ∧ resolveItem qCols [qRow] [("net revenue")] = none :=
  ⟨by decide, quarterlyRows_excluded.2 qCols [qRow] [("net revenue")] (by decide)⟩

theorem mem_rowCandsAux :
    ∀ {cols : List String} {row : List Cell} {pri i : ℕ} {c : Cand},
      c ∈ rowCandsAux pri i cols row →
      ∃ j name cell x, cols[j]? = some name ∧ excludedCols.contains name = false ∧
        row[j]? = some cell ∧ cellPresent cell = true ∧ cellFloat cell = some x ∧
        centi < |x| ∧ c = ⟨pri, i + j, |x|⟩ := by
  intro cols
  induction cols with
  | nil =>
    intro row pri i c hc
    simp [rowCandsAux] at hc
  | cons name cs ih =>
    intro row pri i c hc
    cases row with
    | nil => simp [rowCandsAux] at hc
    | cons cell xs =>
      rw [rowCandsAux] at hc
      rcases List.mem_append.mp hc with h | h
      · by_cases hex : excludedCols.contains name = true
        · rw [if_pos hex] at h
          simp at h
        · rw [if_neg hex] at h
          by_cases hpres : cellPresent cell = true
          · rw [if_pos hpres] at h
            cases hfl : cellFloat cell with
            | none =>
              rw [hfl] at h
              simp at h
            | some x =>
              rw [hfl] at h
              replace h : c ∈ (if centi < |x| then [(⟨pri, i, |x|⟩ : Cand)] else []) := h
              by_cases hbig : centi < |x|
              · rw [if_pos hbig] at h
                rcases List.mem_singleton.mp h with rfl
                exact ⟨0, name, cell, x, by simp, (by simpa using hex), by simp, hpres, hfl, hbig,
                  by simp⟩
              · rw [if_neg hbig] at h
                simp at h
          · rw [if_neg hpres] at h
            simp at h
      · obtain ⟨j, nm, cl, x, h1, h2, h3, h4, h5, h6, h7⟩ := ih h
        refine ⟨j + 1, nm, cl, x, ?_, h2, ?_, h4, h5, h6, ?_⟩
        · simpa using h1
        · simpa using h3
        · rw [h7]
          congr 1
          omega

theorem resolveValue_mem {cs : List Cand} {v : ℚ} (h : resolveValue cs = some v) :
    ∃ c, c ∈ cs ∧ c.val = v := by
  rw [resolveValue] at h
  cases hh : ((isortCand cs).filter isBigCand).head? with
  | some c =>
    rw [hh] at h
    have hc : c ∈ cs := mem_isortCand.mp (List.mem_of_mem_filter (List.mem_of_mem_head? hh))
    exact ⟨c, hc, Option.some_inj.mp h⟩
  | none =>
    rw [hh] at h
    cases h2 : (isortCand cs).head? with
    | none =>
      rw [h2] at h
      simp at h
    | some c =>
      rw [h2] at h
      have hc : c ∈ cs := mem_isortCand.mp (List.mem_of_mem_head? h2)
      exact ⟨c, hc, by simpa using h⟩

theorem mem_candsFor :
    ∀ {cols rows pats} {c : Cand}, c ∈ candsFor cols rows pats →
      ∃ row, row ∈ rows ∧ c ∈ rowCands cols row := by
  intro cols rows pats
  induction pats with
  | nil =>
    intro c hc
    simp [candsFor] at hc
  | cons p ps ih =>
    intro c hc
    rw [candsFor] at hc
    by_cases h1 : (rows.filter (lineItemMatches p cols)).isEmpty = true
    · rw [if_pos h1] at hc
      exact ih hc
    · rw [if_neg h1] at hc
      by_cases h2 :
          (((rows.filter (lineItemMatches p cols)).map (rowCands cols)).flatten).isEmpty = true
      · rw [if_pos h2] at hc
        exact ih hc
      · rw [if_neg h2] at hc
        obtain ⟨l, hl, hcl⟩ := List.mem_flatten.mp hc
        obtain ⟨row, hrow, rfl⟩ := List.mem_map.mp hl
        exact ⟨row, List.mem_of_mem_filter hrow, hcl⟩

theorem centi_eq : centi = 1 / 100 := by
  rw [centi, Rat.mk'_eq_divInt, Rat.divInt_eq_div]
  norm_num

/-- C10: every candidate value stored by the resolution is the absolute value
of a parsed source cell and exceeds `0.01`; hence every resolved value in a
master table is strictly positive (and greater than `0.01`); the only derived
field that can be negative is `net_income_final`, and only through the
`-net_loss` branch taken when `net_income` is absent. -/
theorem masterTable_values_positive :
    (∀ cols row c, c ∈ rowCands cols row →
      ∃ j name cell x, cols[j]? = some name ∧ excludedCols.contains name = false ∧
        row[j]? = some cell ∧ cellFloat cell = some x ∧ centi < |x| ∧
        c.val = |x| ∧ c.colIdx = j)
    ∧ (∀ cols rows pats v, resolveItem cols rows pats = some v → 1 / 100 < v ∧ 0 < v)
    ∧ (∀ x y w, netIncomeFinal x y = some w → x = some w ∨ (x = none ∧ y = some (-w))) := by
  have conj1 : ∀ cols row c, c ∈ rowCands cols row →
      ∃ j name cell x, cols[j]? = some name ∧ excludedCols.contains name = false ∧
        row[j]? = some cell ∧ cellFloat cell = some x ∧ centi < |x| ∧
        c.val = |x| ∧ c.colIdx = j := by
    intro cols row c hc
    rw [rowCands] at hc
    by_cases hq : 2 ≤ quarterlyCount cols row
    · rw [if_pos hq] at hc
      simp at hc
    · rw [if_neg hq] at hc
      obtain ⟨j, name, cell, x, h1, h2, h3, h4, h5, h6, h7⟩ := mem_rowCandsAux hc
      refine ⟨j, name, cell, x, h1, h2, h3, h5, h6, ?_, ?_⟩
      · rw [h7]
      · rw [h7]
        simp
  refine ⟨conj1, ?_, ?_⟩
  · intro cols rows pats v hv
    obtain ⟨c, hc, hval⟩ := resolveValue_mem hv
    obtain ⟨row, hrow, hcr⟩ := mem_candsFor hc
    obtain ⟨j, name, cell, x, h1, h2, h3, h4, h5, h6, h7⟩ := conj1 cols row c hcr
    rw [← hval, h6]
    rw [centi_eq] at h5
    constructor
    · exact h5
    · have : (0 : ℚ) < 1 / 100 := by norm_num
      linarith
  · intro x y w h
    cases x with
    | some a =>
      left
      rw [netIncomeFinal] at h
      rw [h]
    | none =>
      cases y with
      | some b =>
        right
        have hb : some (-b) = some w := h
        have hw : w = -b := (Option.some_inj.mp hb).symm
        exact ⟨rfl, by rw [hw, neg_neg]⟩
      | none => exact absurd h (by simp [netIncomeFinal])

/-- Witness for `masterTable_values_positive`: a one-row income-statement
table resolves `revenue` to `33400`, which is strictly positive. -/
theorem masterTable_values_positive_witness :
    resolveItem (["year", "line_item", "sheet_name", "fy_2023"])
        [[Cell.num 2023, Cell.str ("Net revenue"),
          Cell.str ("Consolidated Statements of Operations"), Cell.num 33400]]
        [("net revenue"), ("total revenue"), ("revenue")] = some 33400
      ∧ (1 / 100 : ℚ) < 33400 ∧ (0 : ℚ) < 33400 :=
  ⟨by decide, masterTable_values_positive.2.1 (["year", "line_item", "sheet_name", "fy_2023"])
    [[Cell.num 2023, Cell.str ("Net revenue"),
      Cell.str ("Consolidated Statements of Operations"), Cell.num 33400]]
    [("net revenue"), ("total revenue"), ("revenue")] 33400 (by decide)⟩
